import Mathlib

/-!
Verification of the statekit statechart engine (Go) against its
natural-language specification.

This file shallowly embeds the engine's intermediate representation (IR),
its build-time validator, and the interpreter core, translated from the
repository sources:
  - internal/ir types and queries (types.go, machine.go, validate.go)
  - interpreter.go (Start, Send, Stop, transition execution, history,
    parallel regions)
  - builder.go (only the shape of the transitions produced by After)

Modelling conventions:
  - Go strings are Lean String; Go maps are association lists with
    Go-zero-value lookup (a missing StateID key reads as "").
  - Go map iteration order is not specified by the language; wherever the
    interpreter ranges over the ActiveInParallel map, the embedding takes
    the enumeration (a list of key/value pairs) as an explicit argument,
    so every order Go may produce is a valid instantiation.
  - Actions mutate the context in place in Go; here an action is a pure
    function C -> Event -> C.  The interpreter state carries a trace of
    the action ids actually executed (an action found in the registry),
    which is the observation the spec's ordering properties talk about.
  - Event payloads are opaque to the engine (only handed to user
    callbacks) and are dropped; an Event is just its type string.
  - The timer subsystem is modelled only as the set of scheduled timer
    keys; real time and timer firing are outside the embedding.
  - The parent-chain walks in the Go code are while-loops that terminate
    on acyclic configurations; they are embedded with a fuel of
    (number of states + 1), which is exact for acyclic state trees.
-/

namespace StateKit

abbrev StateID := String
abbrev EventType := String
abbrev ActionType := String
abbrev GuardType := String

/-- StateType from internal/ir/types.go (v2.0). -/
inductive StateType where
  | atomic
  | compound
  | final
  | history
  | parallel
deriving DecidableEq, Repr

/-- HistoryType from internal/ir/types.go (v2.0). -/
inductive HistoryType where
  | shallow
  | deep
deriving DecidableEq, Repr

/-- A runtime event.  The payload is opaque to the engine and omitted. -/
structure Event where
  type : EventType
deriving DecidableEq, Repr

/-- TransitionConfig from internal/ir.  The delay field is the v2.0
delayed-transition duration (Go time.Duration, in nanoseconds).
Modelled from the spec: the v2.0 ir/machine.go declaring the Delay field
is not under src/; the field is reconstructed from the spec (section 3,
Transition) and its callers in interpreter.go and builder.go. -/
structure TransitionConfig where
  event : EventType := ""
  target : StateID := ""
  guard : GuardType := ""
  actions : List ActionType := []
  delay : Nat := 0
deriving DecidableEq, Repr

/-- StateConfig from internal/ir.  The historyType and historyDefault
fields are v2.0 fields.
Modelled from the spec: the v2.0 ir/machine.go declaring the history
fields is not under src/; they are reconstructed from the spec
(section 3, State) and their callers in interpreter.go and builder.go. -/
structure StateConfig where
  id : StateID := ""
  type : StateType := StateType.atomic
  parent : StateID := ""
  initial : StateID := ""
  children : List StateID := []
  entry : List ActionType := []
  exit : List ActionType := []
  transitions : List TransitionConfig := []
  historyType : HistoryType := HistoryType.shallow
  historyDefault : StateID := ""
deriving DecidableEq, Repr

/-- IsCompound from internal/ir/machine.go. -/
def StateConfig.isCompound (s : StateConfig) : Bool :=
  s.type = StateType.compound && !s.children.isEmpty

/-- Modelled from the spec: IsParallel of the missing v2.0 ir/machine.go;
the spec (section 3, StateKind) makes parallel a kind tag. -/
def StateConfig.isParallel (s : StateConfig) : Bool :=
  s.type = StateType.parallel

/-- Modelled from the spec: IsHistory of the missing v2.0 ir/machine.go. -/
def StateConfig.isHistory (s : StateConfig) : Bool :=
  s.type = StateType.history

/-- Modelled from the spec: IsDelayed of the missing v2.0 ir/machine.go;
a delayed transition is one produced by After with a positive duration. -/
def TransitionConfig.isDelayed (t : TransitionConfig) : Bool :=
  0 < t.delay

/-- Association-list lookup (Go map read returning a presence flag). -/
def aget {α : Type} : List (String × α) → String → Option α
  | [], _ => none
  | (k, v) :: t, key => if k = key then some v else aget t key

/-- Go map read of a map with StateID values: a missing key reads as the
zero value "". -/
def mget (m : List (StateID × StateID)) (k : StateID) : StateID :=
  ((aget m k).getD "")

/-- Go map write: replace the binding if the key is present, else add it. -/
def mset (m : List (StateID × StateID)) (k v : StateID) : List (StateID × StateID) :=
  match m with
  | [] => [(k, v)]
  | (a, b) :: t => if a = k then (k, v) :: t else (a, b) :: mset t k v

/-- MachineConfig from internal/ir/machine.go. -/
structure MachineConfig (C : Type) where
  id : String
  initial : StateID
  context : C
  states : List (StateID × StateConfig)
  actions : List (ActionType × (C → Event → C))
  guards : List (GuardType × (C → Event → Bool))

/-- GetState from internal/ir/machine.go. -/
def MachineConfig.getState {C : Type} (m : MachineConfig C) (id : StateID) : Option StateConfig :=
  aget m.states id

/-- GetAction from internal/ir/machine.go. -/
def MachineConfig.getAction {C : Type} (m : MachineConfig C) (a : ActionType) : Option (C → Event → C) :=
  aget m.actions a

/-- GetGuard from internal/ir/machine.go. -/
def MachineConfig.getGuard {C : Type} (m : MachineConfig C) (g : GuardType) : Option (C → Event → Bool) :=
  aget m.guards g

/-- Fuel bounding every parent-chain walk; exact for acyclic state trees. -/
def MachineConfig.fuel {C : Type} (m : MachineConfig C) : Nat :=
  m.states.length + 1

/-- Loop body of GetAncestors from internal/ir/machine.go: walk the parent
chain from the given state config, collecting parents leaf-first. -/
def getAncestorsAux {C : Type} (m : MachineConfig C) : Nat → Option StateConfig → List StateID
  | 0, _ => []
  | _, none => []
  | n + 1, some c =>
      if c.parent = "" then []
      else c.parent :: getAncestorsAux m n (m.getState c.parent)

/-- GetAncestors from internal/ir/machine.go. -/
def MachineConfig.getAncestors {C : Type} (m : MachineConfig C) (id : StateID) : List StateID :=
  getAncestorsAux m m.fuel (m.getState id)

/-- GetPath from internal/ir/machine.go: root-first path ending at the state. -/
def MachineConfig.getPath {C : Type} (m : MachineConfig C) (id : StateID) : List StateID :=
  (m.getAncestors id).reverse ++ [id]

/-- Recursion of GetInitialLeaf from internal/ir/machine.go. -/
def getInitialLeafAux {C : Type} (m : MachineConfig C) : Nat → StateID → StateID
  | 0, id => id
  | n + 1, id =>
      match m.getState id with
      | none => id
      | some s => if s.isCompound && s.initial ≠ "" then getInitialLeafAux m n s.initial else id

/-- GetInitialLeaf from internal/ir/machine.go. -/
def MachineConfig.getInitialLeaf {C : Type} (m : MachineConfig C) (id : StateID) : StateID :=
  getInitialLeafAux m m.fuel id

/-- IsDescendantOf from internal/ir/machine.go. -/
def MachineConfig.isDescendantOf {C : Type} (m : MachineConfig C) (id anc : StateID) : Bool :=
  (m.getAncestors id).contains anc

/-- Loop of FindLCA from internal/ir/machine.go: deepest shared path prefix. -/
def lcaLoop : List StateID → List StateID → StateID → StateID
  | x :: xs, y :: ys, acc => if x = y then lcaLoop xs ys x else acc
  | _, _, acc => acc

/-- FindLCA from internal/ir/machine.go ("" means above the root). -/
def MachineConfig.findLCA {C : Type} (m : MachineConfig C) (a b : StateID) : StateID :=
  lcaLoop (m.getPath a) (m.getPath b) ""

/-- The interpreter's runtime state (Interpreter plus its State field from
interpreter.go/types.go).  The trace field records the ids of the actions
actually executed, in execution order; timers records the scheduled timer
keys (the keys of the Go timers map). -/
structure Interp (C : Type) where
  value : StateID
  context : C
  activeInParallel : List (StateID × StateID)
  started : Bool
  shallowHistory : List (StateID × StateID)
  deepHistory : List (StateID × StateID)
  timers : List String
  currentParallel : StateID
  trace : List ActionType

/-- transitionSource from interpreter.go. -/
structure TransitionSource where
  state : StateConfig
  transition : TransitionConfig
deriving DecidableEq, Repr

/-- NewInterpreter from interpreter.go. -/
def newInterpreter {C : Type} (m : MachineConfig C) : Interp C :=
  { value := "", context := m.context, activeInParallel := [], started := false,
    shallowHistory := [], deepHistory := [], timers := [], currentParallel := "",
    trace := [] }

/-- executeActions from interpreter.go: run each action found in the
registry (a missing action id is skipped), threading the context and
recording the executed ids in the trace. -/
def executeActions {C : Type} (m : MachineConfig C) : List ActionType → Event → Interp C → Interp C
  | [], _, s => s
  | a :: rest, e, s =>
      match m.getAction a with
      | none => executeActions m rest e s
      | some f =>
          executeActions m rest e { s with context := f s.context e, trace := s.trace ++ [a] }

/-- Timer key stateID:index from scheduleDelayedTransitions. -/
def timerKey (id : StateID) (idx : Nat) : String :=
  id ++ ":" ++ toString idx

/-- Insert a timer key (Go map write on the timers map). -/
def addTimer (ts : List String) (k : String) : List String :=
  if ts.contains k then ts else ts ++ [k]

/-- scheduleDelayedTransitions from interpreter.go, restricted to its
effect on the timer-key set (actual timer objects and firing are outside
the embedding). -/
def scheduleDelayedTransitions {C : Type} (m : MachineConfig C) (id : StateID) (s : Interp C) : Interp C :=
  match m.getState id with
  | none => s
  | some cfg =>
      let delayedIdx := (cfg.transitions.enum.filter (fun p => p.2.isDelayed)).map (fun p => p.1)
      { s with timers := delayedIdx.foldl (fun ts i => addTimer ts (timerKey id i)) s.timers }

/-- cancelDelayedTransitions from interpreter.go: drop every timer key of
the given state. -/
def cancelDelayedTransitions {C : Type} (m : MachineConfig C) (id : StateID) (s : Interp C) : Interp C :=
  match m.getState id with
  | none => s
  | some cfg =>
      let keys := (List.range cfg.transitions.length).map (timerKey id)
      { s with timers := s.timers.filter (fun k => !(keys.contains k)) }

/-- findMatchingTransition from interpreter.go: first transition whose
event matches; a non-empty guard id found in the registry must pass, a
guard id missing from the registry does not block the transition. -/
def findMatchingTransitionAux {C : Type} (m : MachineConfig C) (c : C) (e : Event) :
    List TransitionConfig → Option TransitionConfig
  | [] => none
  | t :: rest =>
      if t.event ≠ e.type then findMatchingTransitionAux m c e rest
      else if t.guard ≠ "" then
        match m.getGuard t.guard with
        | some g => if !(g c e) then findMatchingTransitionAux m c e rest else some t
        | none => some t
      else some t

/-- Loop of findMatchingTransitionHierarchical from interpreter.go:
bubble up the parent chain until a transition matches. -/
def findMatchingTransitionHierarchicalAux {C : Type} (m : MachineConfig C) (c : C) (e : Event) :
    Nat → Option StateConfig → Option TransitionSource
  | 0, _ => none
  | _, none => none
  | n + 1, some cur =>
      match findMatchingTransitionAux m c e cur.transitions with
      | some t => some ⟨cur, t⟩
      | none =>
          if cur.parent = "" then none
          else findMatchingTransitionHierarchicalAux m c e n (m.getState cur.parent)

/-- findMatchingTransitionHierarchical from interpreter.go. -/
def findMatchingTransitionHierarchical {C : Type} (m : MachineConfig C) (c : C) (e : Event)
    (start : StateConfig) : Option TransitionSource :=
  findMatchingTransitionHierarchicalAux m c e m.fuel (some start)

/-- Loop of getStatesToExit from interpreter.go: walk up from the current
leaf, stopping before the LCA. -/
def getStatesToExitAux {C : Type} (m : MachineConfig C) (lca : StateID) :
    Nat → StateID → List StateID
  | 0, _ => []
  | n + 1, current =>
      if current = "" then []
      else if current = lca then []
      else
        current ::
          (match m.getState current with
           | none => []
           | some st => getStatesToExitAux m lca n st.parent)

/-- getStatesToExit from interpreter.go (leaf-to-root order). -/
def MachineConfig.getStatesToExit {C : Type} (m : MachineConfig C) (leaf lca : StateID) : List StateID :=
  getStatesToExitAux m lca m.fuel leaf

/-- Loop of getStatesToEnter from interpreter.go: keep the part of the
root-first path strictly after the LCA. -/
def statesAfterLCA (lca : StateID) : List StateID → Bool → List StateID
  | [], _ => []
  | id :: rest, found =>
      if id = lca then statesAfterLCA lca rest true
      else if found then id :: statesAfterLCA lca rest found
      else statesAfterLCA lca rest found

/-- getStatesToEnter from interpreter.go (root-to-leaf order). -/
def MachineConfig.getStatesToEnter {C : Type} (m : MachineConfig C) (target lca : StateID) : List StateID :=
  statesAfterLCA lca (m.getPath target) (lca = "")

/-- Loop of getEntryPath from interpreter.go. -/
def entryPathLoop (start : StateID) : List StateID → Bool → List StateID
  | [], _ => []
  | id :: rest, found =>
      let found := found || (id = start)
      if found then id :: entryPathLoop start rest found else entryPathLoop start rest found

/-- getEntryPath from interpreter.go. -/
def MachineConfig.getEntryPath {C : Type} (m : MachineConfig C) (start leaf : StateID) : List StateID :=
  if start = leaf then [start]
  else entryPathLoop start (m.getPath leaf) false

/-- resolveHistoryTarget from interpreter.go. -/
def resolveHistoryTarget {C : Type} (m : MachineConfig C) (s : Interp C) (h : StateConfig) : StateID :=
  if h.parent = "" then m.getInitialLeaf h.historyDefault
  else
    let recorded :=
      if h.historyType = HistoryType.deep then mget s.deepHistory h.parent
      else mget s.shallowHistory h.parent
    if recorded ≠ "" then
      if h.historyType = HistoryType.deep then recorded
      else m.getInitialLeaf recorded
    else m.getInitialLeaf h.historyDefault

/-- resolveTarget from interpreter.go. -/
def resolveTarget {C : Type} (m : MachineConfig C) (s : Interp C) (targetID : StateID) : StateID :=
  match m.getState targetID with
  | none => targetID
  | some t =>
      if t.isHistory then resolveHistoryTarget m s t
      else if t.isParallel then targetID
      else m.getInitialLeaf targetID

/-- Step 1 of executeTransitionHierarchical from interpreter.go: for each
exited state (leaf-to-root), cancel its timers, run its exit actions, and
record shallow/deep history on its compound parent.  currentLeaf is the
pre-transition leaf recorded as deep history. -/
def exitPhase {C : Type} (m : MachineConfig C) (e : Event) (currentLeaf : StateID) :
    List StateID → Interp C → Interp C
  | [], s => s
  | id :: rest, s =>
      match m.getState id with
      | none => exitPhase m e currentLeaf rest s
      | some cfg =>
          let s1 := cancelDelayedTransitions m id s
          let s2 := executeActions m cfg.exit e s1
          let s3 :=
            if cfg.parent ≠ "" then
              match m.getState cfg.parent with
              | some parent =>
                  if parent.isCompound then
                    { s2 with shallowHistory := mset s2.shallowHistory parent.id id,
                              deepHistory := mset s2.deepHistory parent.id currentLeaf }
                  else s2
              | none => s2
            else s2
          exitPhase m e currentLeaf rest s3

/-- enterRegion from interpreter.go. -/
def enterRegion {C : Type} (m : MachineConfig C) (rid : StateID) (e : Event) (s : Interp C) : Interp C :=
  match m.getState rid with
  | none => s
  | some r =>
      let leafID := if r.isCompound then m.getInitialLeaf rid else rid
      let path := m.getEntryPath rid leafID
      let s1 := path.foldl
        (fun s id =>
          match m.getState id with
          | none => s
          | some cfg => scheduleDelayedTransitions m id (executeActions m cfg.entry e s)) s
      { s1 with activeInParallel := mset s1.activeInParallel rid leafID }

/-- enterParallelState from interpreter.go. -/
def enterParallelState {C : Type} (m : MachineConfig C) (pid : StateID) (e : Event) (s : Interp C) : Interp C :=
  match m.getState pid with
  | none => s
  | some p =>
      if !p.isParallel then s
      else
        let s1 := { s with currentParallel := pid, value := pid }
        let s2 := scheduleDelayedTransitions m pid (executeActions m p.entry e s1)
        p.children.foldl (fun s rid => enterRegion m rid e s) s2

/-- Steps 4-5 of executeTransitionHierarchical from interpreter.go: enter
the computed states root-to-leaf, diverting to parallel entry if a
parallel state shows up in the entry path, and finally set the leaf. -/
def enterStatesLoop {C : Type} (m : MachineConfig C) (e : Event) (resolvedTarget : StateID) :
    List StateID → Interp C → Interp C
  | [], s => { s with value := resolvedTarget }
  | id :: rest, s =>
      match m.getState id with
      | none => enterStatesLoop m e resolvedTarget rest s
      | some cfg =>
          if cfg.isParallel then enterParallelState m id e s
          else
            enterStatesLoop m e resolvedTarget rest
              (scheduleDelayedTransitions m id (executeActions m cfg.entry e s))

/-- executeTransitionHierarchical from interpreter.go. -/
def executeTransitionHierarchical {C : Type} (m : MachineConfig C) (src : TransitionSource)
    (e : Event) (s : Interp C) : Interp C :=
  let transition := src.transition
  let sourceStateID := src.state.id
  let targetStateID := transition.target
  let resolvedTarget := resolveTarget m s targetStateID
  let currentLeaf := s.value
  let lca := m.findLCA sourceStateID resolvedTarget
  let isSelfTransition := sourceStateID = targetStateID
  let statesToExit :=
    if isSelfTransition then m.getStatesToExit currentLeaf src.state.parent
    else m.getStatesToExit currentLeaf lca
  let statesToEnter :=
    if isSelfTransition then m.getStatesToEnter resolvedTarget src.state.parent
    else m.getStatesToEnter resolvedTarget lca
  let s1 := exitPhase m e currentLeaf statesToExit s
  let s2 := executeActions m transition.actions e s1
  match m.getState resolvedTarget with
  | some targetConfig =>
      if targetConfig.isParallel then enterParallelState m resolvedTarget e s2
      else enterStatesLoop m e resolvedTarget statesToEnter s2
  | none => enterStatesLoop m e resolvedTarget statesToEnter s2

/-- exitRegion from interpreter.go: exit every state from the region leaf
up, filtered to the region's subtree (region included). -/
def exitRegion {C : Type} (m : MachineConfig C) (rid leafID : StateID) (e : Event) (s : Interp C) : Interp C :=
  let statesToExit := m.getStatesToExit leafID ""
  let filtered := statesToExit.filter (fun id => id = rid || m.isDescendantOf id rid)
  filtered.foldl
    (fun s id =>
      match m.getState id with
      | none => s
      | some cfg => executeActions m cfg.exit e (cancelDelayedTransitions m id s)) s

/-- exitParallelState from interpreter.go.  The Go code ranges over the
ActiveInParallel map; the enumeration order pi is an explicit argument
(any order Go may produce). -/
def exitParallelState {C : Type} (m : MachineConfig C) (pi : List (StateID × StateID))
    (e : Event) (s : Interp C) : Interp C :=
  if s.currentParallel = "" then s
  else
    match m.getState s.currentParallel with
    | none => s
    | some p =>
        let s1 := pi.foldl (fun s pr => exitRegion m pr.1 pr.2 e s) s
        let s2 := cancelDelayedTransitions m s.currentParallel s1
        let s3 := executeActions m p.exit e s2
        { s3 with currentParallel := "", activeInParallel := [] }

/-- Loop of findMatchingTransitionInRegion from interpreter.go: bubble up
inside a region, never past the region boundary. -/
def findMatchingTransitionInRegionAux {C : Type} (m : MachineConfig C) (c : C) (rid : StateID)
    (e : Event) : Nat → Option StateConfig → Option TransitionSource
  | 0, _ => none
  | _, none => none
  | n + 1, some cur =>
      match findMatchingTransitionAux m c e cur.transitions with
      | some t => some ⟨cur, t⟩
      | none =>
          if cur.id = rid then none
          else if cur.parent = "" then none
          else findMatchingTransitionInRegionAux m c rid e n (m.getState cur.parent)

/-- findMatchingTransitionInRegion from interpreter.go. -/
def findMatchingTransitionInRegion {C : Type} (m : MachineConfig C) (c : C) (rid : StateID)
    (e : Event) (start : StateConfig) : Option TransitionSource :=
  findMatchingTransitionInRegionAux m c rid e m.fuel (some start)

/-- executeTransitionInRegion from interpreter.go: transition mechanics
clipped to a region's subtree.  Note: unlike executeTransitionHierarchical,
it records no history. -/
def executeTransitionInRegion {C : Type} (m : MachineConfig C) (rid : StateID)
    (src : TransitionSource) (e : Event) (s : Interp C) : Interp C :=
  let transition := src.transition
  let sourceStateID := src.state.id
  let resolvedTarget := resolveTarget m s transition.target
  let currentLeaf := mget s.activeInParallel rid
  let lca0 := m.findLCA sourceStateID resolvedTarget
  let lca := if !(m.isDescendantOf lca0 rid) && lca0 ≠ rid then rid else lca0
  let isSelfTransition := sourceStateID = transition.target
  let statesToExit :=
    if isSelfTransition then m.getStatesToExit currentLeaf src.state.parent
    else m.getStatesToExit currentLeaf lca
  let statesToEnter :=
    if isSelfTransition then m.getStatesToEnter resolvedTarget src.state.parent
    else m.getStatesToEnter resolvedTarget lca
  let s1 := statesToExit.foldl
    (fun s id =>
      match m.getState id with
      | none => s
      | some cfg => executeActions m cfg.exit e (cancelDelayedTransitions m id s)) s
  let s2 := executeActions m transition.actions e s1
  let s3 := statesToEnter.foldl
    (fun s id =>
      match m.getState id with
      | none => s
      | some cfg => scheduleDelayedTransitions m id (executeActions m cfg.entry e s)) s2
  { s3 with activeInParallel := mset s3.activeInParallel rid resolvedTarget }

/-- The broadcast loop of sendToParallelRegions from interpreter.go:
deliver the event to each enumerated region in order, each region's
transition applied fully before the next region is visited. -/
def broadcastRegions {C : Type} (m : MachineConfig C) (e : Event)
    (pi : List (StateID × StateID)) (s : Interp C) : Interp C :=
  pi.foldl
    (fun s pr =>
      match m.getState pr.2 with
      | none => s
      | some regionState =>
          match findMatchingTransitionInRegion m s.context pr.1 e regionState with
          | none => s
          | some ts => executeTransitionInRegion m pr.1 ts e s) s

/-- sendToParallelRegions from interpreter.go.  pi is the enumeration of
the ActiveInParallel map used by whichever of the two Go range loops runs
(the exit loop on a winning parallel-state transition, or the broadcast
loop). -/
def sendToParallelRegions {C : Type} (m : MachineConfig C) (pi : List (StateID × StateID))
    (e : Event) (s : Interp C) : Interp C :=
  match m.getState s.currentParallel with
  | none => s
  | some parallelState =>
      match findMatchingTransitionAux m s.context e parallelState.transitions with
      | some t =>
          executeTransitionHierarchical m ⟨parallelState, t⟩ e (exitParallelState m pi e s)
      | none => broadcastRegions m e pi s

/-- Send from interpreter.go. -/
def send {C : Type} (m : MachineConfig C) (pi : List (StateID × StateID)) (s : Interp C)
    (e : Event) : Interp C :=
  if !s.started then s
  else if s.currentParallel ≠ "" then sendToParallelRegions m pi e s
  else
    match m.getState s.value with
    | none => s
    | some currentState =>
        match findMatchingTransitionHierarchical m s.context e currentState with
        | none => s
        | some source => executeTransitionHierarchical m source e s

/-- enterStateHierarchy from interpreter.go (used by Start). -/
def enterStateHierarchy {C : Type} (m : MachineConfig C) (sid : StateID) (s : Interp C) : Interp C :=
  match m.getState sid with
  | none => s
  | some cfg =>
      if cfg.isParallel then enterParallelState m sid ⟨""⟩ s
      else
        let leaf := m.getInitialLeaf sid
        let path := m.getEntryPath sid leaf
        let firstParallel := path.find? (fun id =>
          match m.getState id with
          | some sc => sc.isParallel
          | none => false)
        match firstParallel with
        | some pid =>
            let prePath := (m.getEntryPath sid pid).dropLast
            let s1 := prePath.foldl
              (fun s preID =>
                match m.getState preID with
                | none => s
                | some preCfg => scheduleDelayedTransitions m preID (executeActions m preCfg.entry ⟨""⟩ s)) s
            enterParallelState m pid ⟨""⟩ s1
        | none =>
            let s1 := path.foldl
              (fun s id =>
                match m.getState id with
                | none => s
                | some c2 => scheduleDelayedTransitions m id (executeActions m c2.entry ⟨""⟩ s)) s
            { s1 with value := leaf }

/-- Start from interpreter.go. -/
def start {C : Type} (m : MachineConfig C) (s : Interp C) : Interp C :=
  if s.started then s
  else enterStateHierarchy m m.initial { s with started := true }

/-- Stop from interpreter.go: cancel all timers, mark not started. -/
def stop {C : Type} (s : Interp C) : Interp C :=
  { s with timers := [], started := false }

/-- UpdateContext from interpreter.go. -/
def updateContext {C : Type} (f : C → C) (s : Interp C) : Interp C :=
  { s with context := f s.context }

/-- executeDelayedTransition from interpreter.go (the timer-callback body
after the started/matches recheck). -/
def executeDelayedTransition {C : Type} (m : MachineConfig C) (sourceState : StateConfig)
    (t : TransitionConfig) (s : Interp C) : Interp C :=
  if t.guard ≠ "" then
    match m.getGuard t.guard with
    | some g =>
        if !(g s.context ⟨""⟩) then s
        else executeTransitionHierarchical m ⟨sourceState, t⟩ ⟨""⟩ s
    | none => executeTransitionHierarchical m ⟨sourceState, t⟩ ⟨""⟩ s
  else executeTransitionHierarchical m ⟨sourceState, t⟩ ⟨""⟩ s

/-- ValidationIssue from internal/ir/validate.go.  Messages follow the Go
format strings with the quote characters around interpolated ids elided. -/
structure ValidationIssue where
  code : String
  message : String
  path : List String
deriving DecidableEq, Repr

/-- Per-state portion of Validate from internal/ir/validate.go. -/
def validateState {C : Type} (m : MachineConfig C) (stateID : StateID) (state : StateConfig) :
    List ValidationIssue :=
  let statePath := ["states", stateID]
  let compoundInitialIssues :=
    if state.type = StateType.compound then
      if state.initial = "" then
        [⟨"COMPOUND_MISSING_INITIAL",
          "compound state " ++ stateID ++ " must have an initial child state", statePath⟩]
      else if !(state.children.contains state.initial) then
        [⟨"COMPOUND_INVALID_INITIAL",
          "initial state " ++ state.initial ++ " must be a child of compound state " ++ stateID,
          statePath⟩]
      else []
    else []
  let childIssues :=
    if state.type = StateType.compound then
      (state.children.enum.map (fun p =>
        match m.getState p.2 with
        | none =>
            [(⟨"INVALID_CHILD", "child state " ++ p.2 ++ " not found",
               statePath ++ ["children", toString p.1]⟩ : ValidationIssue)]
        | some child =>
            if child.parent ≠ stateID then
              [⟨"INVALID_CHILD",
                "child state " ++ p.2 ++ " has incorrect parent " ++ child.parent ++
                  ", expected " ++ stateID,
                statePath ++ ["children", toString p.1]⟩]
            else [])).flatten
    else []
  let parentIssues :=
    if state.parent ≠ "" then
      match m.getState state.parent with
      | none =>
          [(⟨"INVALID_PARENT", "parent state " ++ state.parent ++ " not found", statePath⟩ :
            ValidationIssue)]
      | some parent =>
          if parent.type ≠ StateType.compound then
            [⟨"INVALID_PARENT", "parent state " ++ state.parent ++ " is not a compound state",
              statePath⟩]
          else []
    else []
  let entryIssues :=
    (state.entry.enum.map (fun p =>
      if (m.getAction p.2).isNone then
        [(⟨"MISSING_ACTION", "entry action " ++ p.2 ++ " is not defined",
           statePath ++ ["entry", toString p.1]⟩ : ValidationIssue)]
      else [])).flatten
  let exitIssues :=
    (state.exit.enum.map (fun p =>
      if (m.getAction p.2).isNone then
        [(⟨"MISSING_ACTION", "exit action " ++ p.2 ++ " is not defined",
           statePath ++ ["exit", toString p.1]⟩ : ValidationIssue)]
      else [])).flatten
  let transIssues :=
    (state.transitions.enum.map (fun q =>
      let transPath := statePath ++ ["transitions", toString q.1]
      let targetIssues :=
        if (m.getState q.2.target).isNone then
          [(⟨"INVALID_TARGET", "transition target " ++ q.2.target ++ " not found", transPath⟩ :
            ValidationIssue)]
        else []
      let guardIssues :=
        if q.2.guard ≠ "" then
          if (m.getGuard q.2.guard).isNone then
            [(⟨"MISSING_GUARD", "guard " ++ q.2.guard ++ " is not defined", transPath⟩ :
              ValidationIssue)]
          else []
        else []
      let actionIssues :=
        (q.2.actions.enum.map (fun r =>
          if (m.getAction r.2).isNone then
            [(⟨"MISSING_ACTION", "transition action " ++ r.2 ++ " is not defined",
               transPath ++ ["actions", toString r.1]⟩ : ValidationIssue)]
          else [])).flatten
      targetIssues ++ guardIssues ++ actionIssues)).flatten
  compoundInitialIssues ++ childIssues ++ parentIssues ++ entryIssues ++ exitIssues ++ transIssues

/-- The complete issue list accumulated by Validate from
internal/ir/validate.go.  The Go loop ranges over the States map, whose
iteration order is unspecified; here the machine's state table order is
used.  Issue content is independent of that order. -/
def validateMachine {C : Type} (m : MachineConfig C) : List ValidationIssue :=
  (if m.initial = "" then
    [(⟨"MISSING_INITIAL", "initial state is required", []⟩ : ValidationIssue)]
   else []) ++
  (if m.states.length = 0 then
    [(⟨"NO_STATES", "at least one state is required", []⟩ : ValidationIssue)]
   else []) ++
  (if m.initial ≠ "" && m.states.length > 0 && (m.getState m.initial).isNone then
    [(⟨"INITIAL_NOT_FOUND", "initial state " ++ m.initial ++ " not found in states", []⟩ :
      ValidationIssue)]
   else []) ++
  (m.states.map (fun p => validateState m p.1 p.2)).flatten

/-- Validate from internal/ir/validate.go: none is the nil (success)
return, some carries the accumulated issues. -/
def validate {C : Type} (m : MachineConfig C) : Option (List ValidationIssue) :=
  if (validateMachine m).isEmpty then none else some (validateMachine m)

/-! ### Concrete machines used as witnesses and counterexamples -/

/-- A no-op registered action over the unit context. -/
def uact : Unit → Event → Unit := fun c _ => c

/-- A single atomic state with an entry action. -/
def mSimple : MachineConfig Unit :=
  { id := "simple", initial := "a", context := (),
    states := [("a", { id := "a", entry := ["ea"] })],
    actions := [("ea", uact)],
    guards := [] }

/-- A transition guarded by an id absent from the guard registry. -/
def mGuard : MachineConfig Unit :=
  { id := "guarded", initial := "a", context := (),
    states :=
      [("a", { id := "a", transitions := [{ event := "E", target := "b", guard := "g" }] }),
       ("b", { id := "b" })],
    actions := [], guards := [] }

/-- Hierarchical machine (spec scenario C shape): compound active with
nested compound working and leaf loading; a transition declared on active
leaves for the sibling idle. -/
def mHier : MachineConfig Unit :=
  { id := "hier", initial := "active", context := (),
    states :=
      [("active",
        { id := "active", type := StateType.compound, initial := "working",
          children := ["working"], exit := ["xActive"],
          transitions := [{ event := "STOP", target := "idle", actions := ["tr"] }] }),
       ("working",
        { id := "working", type := StateType.compound, parent := "active", initial := "loading",
          children := ["loading"], exit := ["xWorking"] }),
       ("loading", { id := "loading", parent := "working", exit := ["xLoading"] }),
       ("idle", { id := "idle", entry := ["eIdle"] })],
    actions := [("xActive", uact), ("xWorking", uact), ("xLoading", uact),
                ("tr", uact), ("eIdle", uact)],
    guards := [] }

/-- Compound with a shallow history child. -/
def mHist : MachineConfig Unit :=
  { id := "hist", initial := "act", context := (),
    states :=
      [("act",
        { id := "act", type := StateType.compound, initial := "wk",
          children := ["wk", "dn", "hist"] }),
       ("wk", { id := "wk", parent := "act" }),
       ("dn", { id := "dn", parent := "act" }),
       ("hist",
        { id := "hist", type := StateType.history, parent := "act",
          historyType := HistoryType.shallow, historyDefault := "wk" }),
       ("paused", { id := "paused" })],
    actions := [], guards := [] }

/-- An interpreter state over mHist with shallow history recorded for act. -/
def sRec : Interp Unit :=
  { value := "paused", context := (), activeInParallel := [], started := true,
    shallowHistory := [("act", "wk")], deepHistory := [], timers := [],
    currentParallel := "", trace := [] }

/-- Parallel machine with two regions (spec scenario F shape), reachable
from an atomic initial state. -/
def mPar : MachineConfig Unit :=
  { id := "par", initial := "idle", context := (),
    states :=
      [("idle", { id := "idle", transitions := [{ event := "START", target := "P" }] }),
       ("P",
        { id := "P", type := StateType.parallel, children := ["r1", "r2"],
          entry := ["eP"], exit := ["xP"],
          transitions := [{ event := "CANCEL", target := "cancelled" }] }),
       ("r1",
        { id := "r1", type := StateType.compound, parent := "P", initial := "a1",
          children := ["a1", "b1"] }),
       ("a1",
        { id := "a1", parent := "r1", exit := ["xa1"],
          transitions := [{ event := "GO", target := "b1", actions := ["t1"] }] }),
       ("b1", { id := "b1", parent := "r1" }),
       ("r2",
        { id := "r2", type := StateType.compound, parent := "P", initial := "a2",
          children := ["a2", "b2"] }),
       ("a2",
        { id := "a2", parent := "r2", exit := ["xa2"],
          transitions := [{ event := "GO", target := "b2", actions := ["t2"] }] }),
       ("b2", { id := "b2", parent := "r2" }),
       ("cancelled", { id := "cancelled", type := StateType.final })],
    actions := [("eP", uact), ("xP", uact), ("xa1", uact), ("t1", uact),
                ("xa2", uact), ("t2", uact)],
    guards := [] }

/-- Parallel machine whose single region contains a nested compound, so a
region-restricted transition exits a state with a compound parent. -/
def mParHist : MachineConfig Unit :=
  { id := "parhist", initial := "PH", context := (),
    states :=
      [("PH", { id := "PH", type := StateType.parallel, children := ["r"] }),
       ("r",
        { id := "r", type := StateType.compound, parent := "PH", initial := "c",
          children := ["c"] }),
       ("c",
        { id := "c", type := StateType.compound, parent := "r", initial := "x",
          children := ["x", "y"] }),
       ("x", { id := "x", parent := "c",
               transitions := [{ event := "E", target := "y" }] }),
       ("y", { id := "y", parent := "c" })],
    actions := [], guards := [] }

/-- The transition record produced by the fluent builder After(d) followed
by Target and Do calls (builder.go): the event field keeps its zero value
"" and only the delay distinguishes it from an event transition. -/
def afterTransition (d : Nat) (target : StateID) (acts : List ActionType) : TransitionConfig :=
  { event := "", target := target, guard := "", actions := acts, delay := d }

/-- Machine with a delayed transition out of its initial state. -/
def mDelayed : MachineConfig Unit :=
  { id := "delayed", initial := "waiting", context := (),
    states :=
      [("waiting", { id := "waiting",
                     transitions := [afterTransition 100000000 "timeout" ["ta"]] }),
       ("timeout", { id := "timeout" })],
    actions := [("ta", uact)],
    guards := [] }

/-- Machine with four independent structural defects: missing initial
state, missing entry action, dangling transition target, missing guard. -/
def mInvalid : MachineConfig Unit :=
  { id := "bad", initial := "ghost", context := (),
    states :=
      [("a", { id := "a", entry := ["missingAct"],
               transitions := [{ event := "E", target := "nowhere", guard := "missingGuard" }] })],
    actions := [], guards := [] }

/-! ### Derived descriptions of the interpreter phases

The following definitions give closed forms for the per-field effect of
the interpreter loops; the lemmas below prove that the loops compute them. -/

/-- The action ids of a list that are present in the registry (the ones
executeActions actually runs). -/
def registeredActs {C : Type} (m : MachineConfig C) (acts : List ActionType) : List ActionType :=
  acts.filter (fun a => (m.getAction a).isSome)

/-- Context evolution of executeActions. -/
def runActs {C : Type} (m : MachineConfig C) : List ActionType → Event → C → C
  | [], _, c => c
  | a :: rest, e, c =>
      match m.getAction a with
      | none => runActs m rest e c
      | some f => runActs m rest e (f c e)

/-- Timer-key effect of scheduleDelayedTransitions. -/
def schedTimers {C : Type} (m : MachineConfig C) (id : StateID) (ts : List String) : List String :=
  match m.getState id with
  | none => ts
  | some cfg =>
      ((cfg.transitions.enum.filter (fun p => p.2.isDelayed)).map (fun p => p.1)).foldl
        (fun ts i => addTimer ts (timerKey id i)) ts

/-- Timer-key effect of cancelDelayedTransitions. -/
def cancelTimers {C : Type} (m : MachineConfig C) (id : StateID) (ts : List String) : List String :=
  match m.getState id with
  | none => ts
  | some cfg =>
      ts.filter (fun k => !(((List.range cfg.transitions.length).map (timerKey id)).contains k))

/-- The declared exit actions of a state id ([] if the state is missing). -/
def exitActs {C : Type} (m : MachineConfig C) (id : StateID) : List ActionType :=
  ((m.getState id).map StateConfig.exit).getD []

/-- The declared entry actions of a state id ([] if the state is missing). -/
def entryActs {C : Type} (m : MachineConfig C) (id : StateID) : List ActionType :=
  ((m.getState id).map StateConfig.entry).getD []

/-- Trace contribution of exiting the given states in order. -/
def exitTraceOf {C : Type} (m : MachineConfig C) (ids : List StateID) : List ActionType :=
  (ids.map (fun id => registeredActs m (exitActs m id))).flatten

/-- Trace contribution of entering the given states in order. -/
def entryTraceOf {C : Type} (m : MachineConfig C) (ids : List StateID) : List ActionType :=
  (ids.map (fun id => registeredActs m (entryActs m id))).flatten

/-- Context evolution of an exit fold over the given states. -/
def ctxAfterExits {C : Type} (m : MachineConfig C) (e : Event) : List StateID → C → C
  | [], c => c
  | id :: rest, c =>
      match m.getState id with
      | none => ctxAfterExits m e rest c
      | some cfg => ctxAfterExits m e rest (runActs m cfg.exit e c)

/-- Context evolution of an entry fold over the given states. -/
def ctxAfterEntries {C : Type} (m : MachineConfig C) (e : Event) : List StateID → C → C
  | [], c => c
  | id :: rest, c =>
      match m.getState id with
      | none => ctxAfterEntries m e rest c
      | some cfg => ctxAfterEntries m e rest (runActs m cfg.entry e c)

/-- Timer evolution of an exit fold (cancellations) over the given states. -/
def timersAfterExits {C : Type} (m : MachineConfig C) : List StateID → List String → List String
  | [], ts => ts
  | id :: rest, ts => timersAfterExits m rest (cancelTimers m id ts)

/-- Timer evolution of an entry fold (scheduling) over the given states. -/
def timersAfterEntries {C : Type} (m : MachineConfig C) : List StateID → List String → List String
  | [], ts => ts
  | id :: rest, ts =>
      match m.getState id with
      | none => timersAfterEntries m rest ts
      | some _ => timersAfterEntries m rest (schedTimers m id ts)

/-- Shallow-history effect of the exit loop of executeTransitionHierarchical:
each exited state with a compound parent records itself as that parent's
last active child. -/
def histShallowUpd {C : Type} (m : MachineConfig C) :
    List StateID → List (StateID × StateID) → List (StateID × StateID)
  | [], h => h
  | id :: rest, h =>
      match m.getState id with
      | none => histShallowUpd m rest h
      | some cfg =>
          if cfg.parent ≠ "" then
            match m.getState cfg.parent with
            | some parent =>
                if parent.isCompound then histShallowUpd m rest (mset h parent.id id)
                else histShallowUpd m rest h
            | none => histShallowUpd m rest h
          else histShallowUpd m rest h

/-- Deep-history effect of the exit loop of executeTransitionHierarchical:
each exited state with a compound parent records the pre-transition leaf. -/
def histDeepUpd {C : Type} (m : MachineConfig C) (leaf : StateID) :
    List StateID → List (StateID × StateID) → List (StateID × StateID)
  | [], h => h
  | id :: rest, h =>
      match m.getState id with
      | none => histDeepUpd m leaf rest h
      | some cfg =>
          if cfg.parent ≠ "" then
            match m.getState cfg.parent with
            | some parent =>
                if parent.isCompound then histDeepUpd m leaf rest (mset h parent.id leaf)
                else histDeepUpd m leaf rest h
            | none => histDeepUpd m leaf rest h
          else histDeepUpd m leaf rest h

/-- The exit set computed by executeTransitionHierarchical for a winning
transition source in interpreter state s. -/
def exitSetOf {C : Type} (m : MachineConfig C) (s : Interp C) (src : TransitionSource) :
    List StateID :=
  if src.state.id = src.transition.target then m.getStatesToExit s.value src.state.parent
  else m.getStatesToExit s.value (m.findLCA src.state.id (resolveTarget m s src.transition.target))

/-- The entry set computed by executeTransitionHierarchical for a winning
transition source in interpreter state s. -/
def enterSetOf {C : Type} (m : MachineConfig C) (s : Interp C) (src : TransitionSource) :
    List StateID :=
  if src.state.id = src.transition.target then
    m.getStatesToEnter (resolveTarget m s src.transition.target) src.state.parent
  else
    m.getStatesToEnter (resolveTarget m s src.transition.target)
      (m.findLCA src.state.id (resolveTarget m s src.transition.target))

/-- Whether an id names a parallel state of the machine. -/
def isParallelCfg {C : Type} (m : MachineConfig C) (id : StateID) : Bool :=
  ((m.getState id).map StateConfig.isParallel).getD false

/-! ### Basic lemmas -/

theorem mset_ne_nil (l : List (StateID × StateID)) (k v : StateID) : mset l k v ≠ [] := by
  cases l with
  | nil => simp [mset]
  | cons p t =>
      simp only [mset]
      split <;> simp

theorem registeredActs_of_all {C : Type} (m : MachineConfig C) (acts : List ActionType)
    (h : ∀ a ∈ acts, (m.getAction a).isSome = true) : registeredActs m acts = acts := by
  unfold registeredActs
  exact List.filter_eq_self.mpr h

theorem executeActions_eq {C : Type} (m : MachineConfig C) (acts : List ActionType) (e : Event)
    (s : Interp C) :
    executeActions m acts e s =
      { s with context := runActs m acts e s.context,
               trace := s.trace ++ registeredActs m acts } := by
  induction acts generalizing s with
  | nil => simp [executeActions, runActs, registeredActs]
  | cons a rest ih =>
      cases h : m.getAction a with
      | none =>
          simp only [executeActions, h, runActs, ih]
          simp [registeredActs, List.filter_cons, h]
      | some f =>
          simp only [executeActions, h, runActs, ih]
          simp [registeredActs, List.filter_cons, h, Option.isSome]

theorem scheduleDelayedTransitions_eq {C : Type} (m : MachineConfig C) (id : StateID)
    (s : Interp C) :
    scheduleDelayedTransitions m id s = { s with timers := schedTimers m id s.timers } := by
  unfold scheduleDelayedTransitions schedTimers
  cases m.getState id <;> rfl

theorem cancelDelayedTransitions_eq {C : Type} (m : MachineConfig C) (id : StateID)
    (s : Interp C) :
    cancelDelayedTransitions m id s = { s with timers := cancelTimers m id s.timers } := by
  unfold cancelDelayedTransitions cancelTimers
  cases m.getState id <;> rfl

theorem exitFold_eq {C : Type} (m : MachineConfig C) (e : Event) (ids : List StateID)
    (s : Interp C) :
    (ids.foldl (fun s id =>
      match m.getState id with
      | none => s
      | some cfg => executeActions m cfg.exit e (cancelDelayedTransitions m id s)) s) =
    { s with context := ctxAfterExits m e ids s.context,
             trace := s.trace ++ exitTraceOf m ids,
             timers := timersAfterExits m ids s.timers } := by
  induction ids generalizing s with
  | nil => simp [ctxAfterExits, exitTraceOf, timersAfterExits]
  | cons id rest ih =>
      simp only [List.foldl_cons]
      rw [ih]
      cases h : m.getState id with
      | none =>
          simp [h, ctxAfterExits, exitTraceOf, timersAfterExits, cancelTimers, exitActs,
            registeredActs]
      | some cfg =>
          simp only [h, cancelDelayedTransitions_eq, executeActions_eq]
          simp [ctxAfterExits, exitTraceOf, timersAfterExits, h, exitActs, List.append_assoc]

theorem entryFold_eq {C : Type} (m : MachineConfig C) (e : Event) (ids : List StateID)
    (s : Interp C) :
    (ids.foldl (fun s id =>
      match m.getState id with
      | none => s
      | some cfg => scheduleDelayedTransitions m id (executeActions m cfg.entry e s)) s) =
    { s with context := ctxAfterEntries m e ids s.context,
             trace := s.trace ++ entryTraceOf m ids,
             timers := timersAfterEntries m ids s.timers } := by
  induction ids generalizing s with
  | nil => simp [ctxAfterEntries, entryTraceOf, timersAfterEntries]
  | cons id rest ih =>
      simp only [List.foldl_cons]
      rw [ih]
      cases h : m.getState id with
      | none =>
          simp [h, ctxAfterEntries, entryTraceOf, timersAfterEntries, entryActs,
            registeredActs]
      | some cfg =>
          simp only [h, scheduleDelayedTransitions_eq, executeActions_eq]
          simp [ctxAfterEntries, entryTraceOf, timersAfterEntries, h, entryActs,
            List.append_assoc]

theorem exitPhase_eq {C : Type} (m : MachineConfig C) (e : Event) (leaf : StateID)
    (ids : List StateID) (s : Interp C) :
    exitPhase m e leaf ids s =
    { s with context := ctxAfterExits m e ids s.context,
             trace := s.trace ++ exitTraceOf m ids,
             timers := timersAfterExits m ids s.timers,
             shallowHistory := histShallowUpd m ids s.shallowHistory,
             deepHistory := histDeepUpd m leaf ids s.deepHistory } := by
  induction ids generalizing s with
  | nil => simp [exitPhase, ctxAfterExits, exitTraceOf, timersAfterExits, histShallowUpd,
      histDeepUpd]
  | cons id rest ih =>
      simp only [exitPhase]
      cases h : m.getState id with
      | none =>
          rw [ih]
          simp [h, ctxAfterExits, exitTraceOf, timersAfterExits, histShallowUpd, histDeepUpd,
            cancelTimers, exitActs, registeredActs]
      | some cfg =>
          simp only [h, cancelDelayedTransitions_eq, executeActions_eq]
          by_cases hp : cfg.parent = ""
          · simp only [hp, ne_eq, not_true_eq_false, if_false, ite_false]
            rw [ih]
            simp [ctxAfterExits, exitTraceOf, timersAfterExits, histShallowUpd,
              histDeepUpd, h, hp, exitActs, List.append_assoc]
          · cases hq : m.getState cfg.parent with
            | none =>
                simp only [hp, hq, ne_eq, not_false_eq_true, if_true, ite_true]
                rw [ih]
                simp [ctxAfterExits, exitTraceOf, timersAfterExits, histShallowUpd,
                  histDeepUpd, h, hp, hq, exitActs, List.append_assoc]
            | some parent =>
                by_cases hc : parent.isCompound
                · simp only [hp, hq, hc, ne_eq, not_false_eq_true, if_true, ite_true]
                  rw [ih]
                  simp [ctxAfterExits, exitTraceOf, timersAfterExits, histShallowUpd,
                    histDeepUpd, h, hp, hq, hc, exitActs, List.append_assoc]
                · simp only [hp, hq, hc, ne_eq, not_false_eq_true, if_true, ite_true,
                    Bool.not_eq_true, if_false, ite_false]
                  rw [ih]
                  simp [ctxAfterExits, exitTraceOf, timersAfterExits, histShallowUpd,
                    histDeepUpd, h, hp, hq, hc, exitActs, List.append_assoc]

/-- The leaf a region resolves to on entry (enterRegion). -/
def regionLeaf {C : Type} (m : MachineConfig C) (r : StateConfig) (rid : StateID) : StateID :=
  if r.isCompound then m.getInitialLeaf rid else rid

/-- The states exitRegion exits: the full chain from the region leaf,
clipped to the region's subtree. -/
def regionExitIds {C : Type} (m : MachineConfig C) (rid leaf : StateID) : List StateID :=
  (m.getStatesToExit leaf "").filter (fun id => id = rid || m.isDescendantOf id rid)

theorem enterStatesLoop_eq {C : Type} (m : MachineConfig C) (e : Event) (rt : StateID)
    (ids : List StateID) (s : Interp C) (h : ∀ id ∈ ids, isParallelCfg m id = false) :
    enterStatesLoop m e rt ids s =
      { s with value := rt,
               context := ctxAfterEntries m e ids s.context,
               trace := s.trace ++ entryTraceOf m ids,
               timers := timersAfterEntries m ids s.timers } := by
  induction ids generalizing s with
  | nil => simp [enterStatesLoop, ctxAfterEntries, entryTraceOf, timersAfterEntries]
  | cons id rest ih =>
      have hrest : ∀ i ∈ rest, isParallelCfg m i = false := fun i hi => h i (List.mem_cons_of_mem _ hi)
      simp only [enterStatesLoop]
      cases hg : m.getState id with
      | none =>
          rw [ih _ hrest]
          simp [hg, ctxAfterEntries, entryTraceOf, timersAfterEntries, entryActs, registeredActs]
      | some cfg =>
          have hcp : cfg.isParallel = false := by
            have hid := h id (List.mem_cons_self _ _)
            simpa [isParallelCfg, hg] using hid
          simp only [hg, hcp, Bool.false_eq_true, if_false, ite_false,
            scheduleDelayedTransitions_eq, executeActions_eq]
          rw [ih _ hrest]
          simp [ctxAfterEntries, entryTraceOf, timersAfterEntries, hg, entryActs,
            List.append_assoc]

theorem enterRegion_eq_none {C : Type} (m : MachineConfig C) (rid : StateID) (e : Event)
    (s : Interp C) (h : m.getState rid = none) : enterRegion m rid e s = s := by
  simp [enterRegion, h]

theorem enterRegion_eq_some {C : Type} (m : MachineConfig C) (rid : StateID) (e : Event)
    (s : Interp C) (r : StateConfig) (h : m.getState rid = some r) :
    enterRegion m rid e s =
      { s with context := ctxAfterEntries m e (m.getEntryPath rid (regionLeaf m r rid)) s.context,
               trace := s.trace ++ entryTraceOf m (m.getEntryPath rid (regionLeaf m r rid)),
               timers := timersAfterEntries m (m.getEntryPath rid (regionLeaf m r rid)) s.timers,
               activeInParallel :=
                 mset s.activeInParallel rid (regionLeaf m r rid) } := by
  simp only [enterRegion, h, regionLeaf]
  rw [entryFold_eq]

theorem exitRegion_eq {C : Type} (m : MachineConfig C) (rid leaf : StateID) (e : Event)
    (s : Interp C) :
    exitRegion m rid leaf e s =
      { s with context := ctxAfterExits m e (regionExitIds m rid leaf) s.context,
               trace := s.trace ++ exitTraceOf m (regionExitIds m rid leaf),
               timers := timersAfterExits m (regionExitIds m rid leaf) s.timers } := by
  simp only [exitRegion, regionExitIds]
  rw [exitFold_eq]

/-- Context evolution of the region-exit loop of exitParallelState. -/
def ctxAfterRegionExits {C : Type} (m : MachineConfig C) (e : Event) :
    List (StateID × StateID) → C → C
  | [], c => c
  | pr :: rest, c =>
      ctxAfterRegionExits m e rest (ctxAfterExits m e (regionExitIds m pr.1 pr.2) c)

/-- Timer evolution of the region-exit loop of exitParallelState. -/
def timersAfterRegionExits {C : Type} (m : MachineConfig C) :
    List (StateID × StateID) → List String → List String
  | [], ts => ts
  | pr :: rest, ts =>
      timersAfterRegionExits m rest (timersAfterExits m (regionExitIds m pr.1 pr.2) ts)

/-- Trace contribution of exiting the given regions in the given order. -/
def regionsExitTrace {C : Type} (m : MachineConfig C) (pi : List (StateID × StateID)) :
    List ActionType :=
  (pi.map (fun pr => exitTraceOf m (regionExitIds m pr.1 pr.2))).flatten

theorem regionsExitFold_eq {C : Type} (m : MachineConfig C) (e : Event)
    (pi : List (StateID × StateID)) (s : Interp C) :
    (pi.foldl (fun s pr => exitRegion m pr.1 pr.2 e s) s) =
      { s with context := ctxAfterRegionExits m e pi s.context,
               trace := s.trace ++ regionsExitTrace m pi,
               timers := timersAfterRegionExits m pi s.timers } := by
  induction pi generalizing s with
  | nil => simp [ctxAfterRegionExits, regionsExitTrace, timersAfterRegionExits]
  | cons pr rest ih =>
      simp only [List.foldl_cons]
      rw [ih]
      simp [exitRegion_eq, ctxAfterRegionExits, regionsExitTrace, timersAfterRegionExits,
        List.append_assoc]

theorem exitParallelState_eq_some {C : Type} (m : MachineConfig C)
    (pi : List (StateID × StateID)) (e : Event) (s : Interp C) (p : StateConfig)
    (hcp : s.currentParallel ≠ "") (hp : m.getState s.currentParallel = some p) :
    exitParallelState m pi e s =
      { s with context := runActs m p.exit e (ctxAfterRegionExits m e pi s.context),
               trace := s.trace ++ regionsExitTrace m pi ++ registeredActs m p.exit,
               timers := cancelTimers m s.currentParallel (timersAfterRegionExits m pi s.timers),
               currentParallel := "",
               activeInParallel := [] } := by
  simp only [exitParallelState, hcp, if_neg, hp]
  rw [regionsExitFold_eq]
  simp only [cancelDelayedTransitions_eq, executeActions_eq]
  simp [List.append_assoc]

/-- The exit set computed by executeTransitionInRegion. -/
def regionExitSetOf {C : Type} (m : MachineConfig C) (s : Interp C) (rid : StateID)
    (src : TransitionSource) : List StateID :=
  let resolvedTarget := resolveTarget m s src.transition.target
  let currentLeaf := mget s.activeInParallel rid
  let lca0 := m.findLCA src.state.id resolvedTarget
  let lca := if !(m.isDescendantOf lca0 rid) && lca0 ≠ rid then rid else lca0
  if src.state.id = src.transition.target then m.getStatesToExit currentLeaf src.state.parent
  else m.getStatesToExit currentLeaf lca

/-- The entry set computed by executeTransitionInRegion. -/
def regionEnterSetOf {C : Type} (m : MachineConfig C) (s : Interp C) (rid : StateID)
    (src : TransitionSource) : List StateID :=
  let resolvedTarget := resolveTarget m s src.transition.target
  let lca0 := m.findLCA src.state.id resolvedTarget
  let lca := if !(m.isDescendantOf lca0 rid) && lca0 ≠ rid then rid else lca0
  if src.state.id = src.transition.target then m.getStatesToEnter resolvedTarget src.state.parent
  else m.getStatesToEnter resolvedTarget lca

theorem executeTransitionInRegion_eq {C : Type} (m : MachineConfig C) (rid : StateID)
    (src : TransitionSource) (e : Event) (s : Interp C) :
    executeTransitionInRegion m rid src e s =
      { s with
        context :=
          ctxAfterEntries m e (regionEnterSetOf m s rid src)
            (runActs m src.transition.actions e
              (ctxAfterExits m e (regionExitSetOf m s rid src) s.context)),
        trace :=
          s.trace ++ exitTraceOf m (regionExitSetOf m s rid src) ++
            registeredActs m src.transition.actions ++
            entryTraceOf m (regionEnterSetOf m s rid src),
        timers :=
          timersAfterEntries m (regionEnterSetOf m s rid src)
            (timersAfterExits m (regionExitSetOf m s rid src) s.timers),
        activeInParallel :=
          mset s.activeInParallel rid (resolveTarget m s src.transition.target) } := by
  simp only [executeTransitionInRegion, regionExitSetOf, regionEnterSetOf]
  rw [exitFold_eq, executeActions_eq, entryFold_eq]

theorem executeTransitionHierarchical_eq {C : Type} (m : MachineConfig C)
    (src : TransitionSource) (e : Event) (s : Interp C)
    (htp : isParallelCfg m (resolveTarget m s src.transition.target) = false)
    (henp : ∀ id ∈ enterSetOf m s src, isParallelCfg m id = false) :
    executeTransitionHierarchical m src e s =
      { s with
        value := resolveTarget m s src.transition.target,
        context :=
          ctxAfterEntries m e (enterSetOf m s src)
            (runActs m src.transition.actions e
              (ctxAfterExits m e (exitSetOf m s src) s.context)),
        trace :=
          s.trace ++ exitTraceOf m (exitSetOf m s src) ++
            registeredActs m src.transition.actions ++
            entryTraceOf m (enterSetOf m s src),
        timers :=
          timersAfterEntries m (enterSetOf m s src)
            (timersAfterExits m (exitSetOf m s src) s.timers),
        shallowHistory := histShallowUpd m (exitSetOf m s src) s.shallowHistory,
        deepHistory := histDeepUpd m s.value (exitSetOf m s src) s.deepHistory } := by
  simp only [executeTransitionHierarchical, exitSetOf, enterSetOf] at *
  rw [exitPhase_eq, executeActions_eq]
  cases h : m.getState (resolveTarget m s src.transition.target) with
  | none =>
      simp only [h]
      rw [enterStatesLoop_eq _ _ _ _ _ henp]
  | some tc =>
      have hpar : tc.isParallel = false := by simpa [isParallelCfg, h] using htp
      simp only [h, hpar, Bool.false_eq_true, if_false, ite_false]
      rw [enterStatesLoop_eq _ _ _ _ _ henp]

theorem regionsEnterFold_fields {C : Type} (m : MachineConfig C) (e : Event)
    (rids : List StateID) (s : Interp C) :
    (rids.foldl (fun s rid => enterRegion m rid e s) s).value = s.value ∧
    (rids.foldl (fun s rid => enterRegion m rid e s) s).currentParallel = s.currentParallel ∧
    (rids.foldl (fun s rid => enterRegion m rid e s) s).started = s.started ∧
    (rids.foldl (fun s rid => enterRegion m rid e s) s).shallowHistory = s.shallowHistory ∧
    (rids.foldl (fun s rid => enterRegion m rid e s) s).deepHistory = s.deepHistory := by
  induction rids generalizing s with
  | nil => simp
  | cons rid rest ih =>
      simp only [List.foldl_cons]
      cases hg : m.getState rid with
      | none =>
          rw [enterRegion_eq_none m rid e _ hg]
          exact ih s
      | some r =>
          rw [enterRegion_eq_some m rid e _ r hg]
          simpa using ih _

theorem enterParallelState_fields {C : Type} (m : MachineConfig C) (pid : StateID) (e : Event)
    (s : Interp C) :
    (enterParallelState m pid e s).shallowHistory = s.shallowHistory ∧
    (enterParallelState m pid e s).deepHistory = s.deepHistory ∧
    (enterParallelState m pid e s).started = s.started := by
  simp only [enterParallelState]
  cases hg : m.getState pid with
  | none => simp
  | some p =>
      by_cases hpar : p.isParallel
      · simp only [hpar, Bool.not_true, Bool.false_eq_true, if_false, ite_false,
          scheduleDelayedTransitions_eq, executeActions_eq]
        obtain ⟨-, -, h3, h4, h5⟩ := regionsEnterFold_fields m e p.children
          (⟨{ s with currentParallel := pid, value := pid }.value,
            runActs m p.entry e s.context, s.activeInParallel, s.started, s.shallowHistory,
            s.deepHistory, schedTimers m pid s.timers, pid, s.trace ++ registeredActs m p.entry⟩)
        exact ⟨by simpa using h4, by simpa using h5, by simpa using h3⟩
      · simp [hpar]

theorem enterStatesLoop_histories {C : Type} (m : MachineConfig C) (e : Event) (rt : StateID)
    (ids : List StateID) (s : Interp C) :
    (enterStatesLoop m e rt ids s).shallowHistory = s.shallowHistory ∧
    (enterStatesLoop m e rt ids s).deepHistory = s.deepHistory ∧
    (enterStatesLoop m e rt ids s).started = s.started := by
  induction ids generalizing s with
  | nil => simp [enterStatesLoop]
  | cons id rest ih =>
      simp only [enterStatesLoop]
      cases hg : m.getState id with
      | none => exact ih s
      | some cfg =>
          by_cases hpar : cfg.isParallel
          · simp only [hpar, if_true, ite_true]
            exact enterParallelState_fields m id e s
          · simp only [hpar, Bool.false_eq_true, if_false, ite_false,
              scheduleDelayedTransitions_eq, executeActions_eq]
            simpa using ih _

theorem executeTransitionHierarchical_histories {C : Type} (m : MachineConfig C)
    (src : TransitionSource) (e : Event) (s : Interp C) :
    (executeTransitionHierarchical m src e s).shallowHistory =
      histShallowUpd m (exitSetOf m s src) s.shallowHistory ∧
    (executeTransitionHierarchical m src e s).deepHistory =
      histDeepUpd m s.value (exitSetOf m s src) s.deepHistory := by
  simp only [executeTransitionHierarchical, exitSetOf]
  rw [exitPhase_eq, executeActions_eq]
  cases h : m.getState (resolveTarget m s src.transition.target) with
  | none =>
      simp only [h]
      have := enterStatesLoop_histories m e (resolveTarget m s src.transition.target)
      constructor <;> simp [this]
  | some tc =>
      by_cases hpar : tc.isParallel
      · simp only [h, hpar, if_true, ite_true]
        have := enterParallelState_fields m (resolveTarget m s src.transition.target) e
        constructor <;> simp [this]
      · simp only [h, hpar, Bool.false_eq_true, if_false, ite_false]
        have := enterStatesLoop_histories m e (resolveTarget m s src.transition.target)
        constructor <;> simp [this]

theorem traceOf_exit_all_registered {C : Type} (m : MachineConfig C) (ids : List StateID)
    (h : ∀ id ∈ ids, ∀ a ∈ exitActs m id, (m.getAction a).isSome = true) :
    exitTraceOf m ids = (ids.map (exitActs m)).flatten := by
  unfold exitTraceOf
  congr 1
  exact List.map_congr_left (fun id hid => registeredActs_of_all m _ (h id hid))

theorem traceOf_entry_all_registered {C : Type} (m : MachineConfig C) (ids : List StateID)
    (h : ∀ id ∈ ids, ∀ a ∈ entryActs m id, (m.getAction a).isSome = true) :
    entryTraceOf m ids = (ids.map (entryActs m)).flatten := by
  unfold entryTraceOf
  congr 1
  exact List.map_congr_left (fun id hid => registeredActs_of_all m _ (h id hid))

theorem enterStateHierarchy_started {C : Type} (m : MachineConfig C) (sid : StateID)
    (s : Interp C) : (enterStateHierarchy m sid s).started = s.started := by
  simp only [enterStateHierarchy]
  cases hg : m.getState sid with
  | none => rfl
  | some cfg =>
      by_cases hpar : cfg.isParallel
      · simp only [hpar, if_true, ite_true]
        exact (enterParallelState_fields m sid ⟨""⟩ s).2.2
      · simp only [hpar, Bool.false_eq_true, if_false, ite_false]
        cases hf : (m.getEntryPath sid (m.getInitialLeaf sid)).find? (fun id =>
          match m.getState id with
          | some sc => sc.isParallel
          | none => false) with
        | some pid =>
            simp only [hf]
            rw [entryFold_eq]
            have := enterParallelState_fields m pid ⟨""⟩
            simp [this]
        | none =>
            simp only [hf]
            rw [entryFold_eq]

/-! ### Claims -/

/-- C1: for a started interpreter outside any parallel state, when an
event resolves a winning transition whose resolved target is not parallel
and whose entry set contains no parallel state, and all referenced action
ids are registered, the executed action ids are exactly the exit actions
of the exit set (leaf-to-root), then the transition actions in declaration
order, then the entry actions of the entry set (root-to-leaf). -/
theorem c1_action_ordering {C : Type} (m : MachineConfig C) (pi : List (StateID × StateID))
    (s : Interp C) (e : Event) (cur : StateConfig) (src : TransitionSource)
    (hst : s.started = true) (hcp : s.currentParallel = "")
    (hcur : m.getState s.value = some cur)
    (hfind : findMatchingTransitionHierarchical m s.context e cur = some src)
    (htp : isParallelCfg m (resolveTarget m s src.transition.target) = false)
    (henp : ∀ id ∈ enterSetOf m s src, isParallelCfg m id = false)
    (hxreg : ∀ id ∈ exitSetOf m s src, ∀ a ∈ exitActs m id, (m.getAction a).isSome = true)
    (htreg : ∀ a ∈ src.transition.actions, (m.getAction a).isSome = true)
    (hereg : ∀ id ∈ enterSetOf m s src, ∀ a ∈ entryActs m id, (m.getAction a).isSome = true) :
    (send m pi s e).trace =
      s.trace ++ ((exitSetOf m s src).map (exitActs m)).flatten ++
        src.transition.actions ++ ((enterSetOf m s src).map (entryActs m)).flatten := by
  have hsend : send m pi s e = executeTransitionHierarchical m src e s := by
    simp [send, hst, hcp, hcur, hfind]
  rw [hsend, executeTransitionHierarchical_eq m src e s htp henp]
  simp only [traceOf_exit_all_registered m _ hxreg, traceOf_entry_all_registered m _ hereg,
    registeredActs_of_all m _ htreg]

/-- C1 witness: the scenario-C machine exiting loading, working, active and
entering idle on STOP. -/
theorem c1_witness :
    (send mHier [] (start mHier (newInterpreter mHier)) ⟨"STOP"⟩).trace =
      (start mHier (newInterpreter mHier)).trace ++
        ((exitSetOf mHier (start mHier (newInterpreter mHier))
            ⟨(mHier.getState "active").getD {},
             { event := "STOP", target := "idle", actions := ["tr"] }⟩).map
          (exitActs mHier)).flatten ++
        ["tr"] ++
        ((enterSetOf mHier (start mHier (newInterpreter mHier))
            ⟨(mHier.getState "active").getD {},
             { event := "STOP", target := "idle", actions := ["tr"] }⟩).map
          (entryActs mHier)).flatten :=
  c1_action_ordering mHier [] (start mHier (newInterpreter mHier)) ⟨"STOP"⟩
    ((mHier.getState "loading").getD {})
    ⟨(mHier.getState "active").getD {}, { event := "STOP", target := "idle", actions := ["tr"] }⟩
    rfl rfl rfl rfl rfl (by decide) (by decide) (by decide) (by decide)

/-- C2 counterexample: in mGuard the only transition out of a carries the
guard id g, absent from the registry; the spec says dispatch must suppress
it, but sending E executes it and moves the interpreter to b. -/
theorem c2_counterexample :
    (mGuard.getGuard "g").isNone = true ∧
    (start mGuard (newInterpreter mGuard)).value = "a" ∧
    (send mGuard [] (start mGuard (newInterpreter mGuard)) ⟨"E"⟩).value = "b" :=
  ⟨rfl, rfl, rfl⟩

/-- C2 (amended): a transition whose guard id is non-empty but missing
from the guard registry is treated as unguarded: it matches during event
dispatch (it wins if it is the first event match) and a delayed transition
with a missing guard executes unconditionally. -/
theorem c2_missing_guard_permits {C : Type} (m : MachineConfig C) (c : C) (e : Event)
    (t : TransitionConfig) (rest : List TransitionConfig) (srcState : StateConfig)
    (s : Interp C)
    (hev : t.event = e.type) (hg : t.guard ≠ "") (hmiss : m.getGuard t.guard = none) :
    findMatchingTransitionAux m c e (t :: rest) = some t ∧
    executeDelayedTransition m srcState t s =
      executeTransitionHierarchical m ⟨srcState, t⟩ ⟨""⟩ s := by
  constructor
  · simp [findMatchingTransitionAux, hev, hg, hmiss]
  · simp [executeDelayedTransition, hg, hmiss]

/-- C2 witness: the missing-guard transition of mGuard matches and its
delayed execution is unconditional. -/
theorem c2_witness :
    findMatchingTransitionAux mGuard () ⟨"E"⟩
        [{ event := "E", target := "b", guard := "g" }] =
      some { event := "E", target := "b", guard := "g" } ∧
    executeDelayedTransition mGuard ((mGuard.getState "a").getD {})
        { event := "E", target := "b", guard := "g" } (newInterpreter mGuard) =
      executeTransitionHierarchical mGuard
        ⟨(mGuard.getState "a").getD {}, { event := "E", target := "b", guard := "g" }⟩
        ⟨""⟩ (newInterpreter mGuard) :=
  c2_missing_guard_permits mGuard () ⟨"E"⟩ _ [] ((mGuard.getState "a").getD {})
    (newInterpreter mGuard) rfl (by decide) rfl

/-- C4 counterexample: in mParHist, broadcasting E makes the region
transition exit x, whose parent c is a Compound state, before the
pre-transition leaf x is replaced by y; yet neither history map records
anything: region-restricted transitions record no history. -/
theorem c4_counterexample :
    ((mParHist.getState "x").map (fun c => c.parent)).getD "" = "c" ∧
    ((mParHist.getState "c").map StateConfig.isCompound).getD false = true ∧
    (start mParHist (newInterpreter mParHist)).activeInParallel = [("r", "x")] ∧
    (send mParHist [("r", "x")] (start mParHist (newInterpreter mParHist))
        ⟨"E"⟩).activeInParallel = [("r", "y")] ∧
    mget (send mParHist [("r", "x")] (start mParHist (newInterpreter mParHist))
        ⟨"E"⟩).shallowHistory "c" = "" ∧
    mget (send mParHist [("r", "x")] (start mParHist (newInterpreter mParHist))
        ⟨"E"⟩).deepHistory "c" = "" :=
  ⟨rfl, rfl, rfl, rfl, rfl, rfl⟩

/-- C4 (amended): during hierarchical (non-region) transition execution,
every exited state with a Compound parent records shallow history (the
exited state) and deep history (the pre-transition leaf) on that parent,
and the updates are complete at the end of the exit phase, before the
target is entered; transitions restricted to a parallel region's subtree,
however, leave both history maps unchanged. -/
theorem c4_history_recording {C : Type} (m : MachineConfig C) (src : TransitionSource)
    (e : Event) (s : Interp C) (rid : StateID) :
    ((exitPhase m e s.value (exitSetOf m s src) s).shallowHistory =
        histShallowUpd m (exitSetOf m s src) s.shallowHistory ∧
     (exitPhase m e s.value (exitSetOf m s src) s).deepHistory =
        histDeepUpd m s.value (exitSetOf m s src) s.deepHistory) ∧
    ((executeTransitionHierarchical m src e s).shallowHistory =
        histShallowUpd m (exitSetOf m s src) s.shallowHistory ∧
     (executeTransitionHierarchical m src e s).deepHistory =
        histDeepUpd m s.value (exitSetOf m s src) s.deepHistory) ∧
    ((executeTransitionInRegion m rid src e s).shallowHistory = s.shallowHistory ∧
     (executeTransitionInRegion m rid src e s).deepHistory = s.deepHistory) := by
  refine ⟨⟨?_, ?_⟩, executeTransitionHierarchical_histories m src e s, ?_, ?_⟩
  · rw [exitPhase_eq]
  · rw [exitPhase_eq]
  · rw [executeTransitionInRegion_eq]
  · rw [executeTransitionInRegion_eq]

/-- C5: resolving a transition target that is a History state with a
non-root Compound parent: deep history uses the recorded leaf as-is,
shallow history resolves the initial leaf of the recorded child, and with
no recorded history the initial leaf of the declared default is used. -/
theorem c5_history_target_resolution {C : Type} (m : MachineConfig C) (s : Interp C)
    (tid P : StateID) (h : StateConfig)
    (hget : m.getState tid = some h) (hh : h.isHistory = true) (hp : h.parent = P)
    (hPne : P ≠ "") :
    (h.historyType = HistoryType.deep → mget s.deepHistory P ≠ "" →
        resolveTarget m s tid = mget s.deepHistory P) ∧
    (h.historyType = HistoryType.shallow → mget s.shallowHistory P ≠ "" →
        resolveTarget m s tid = m.getInitialLeaf (mget s.shallowHistory P)) ∧
    ((if h.historyType = HistoryType.deep then mget s.deepHistory P
      else mget s.shallowHistory P) = "" →
        resolveTarget m s tid = m.getInitialLeaf h.historyDefault) := by
  subst hp
  refine ⟨?_, ?_, ?_⟩
  · intro h1 h2
    simp [resolveTarget, hget, hh, resolveHistoryTarget, hPne, h1, h2]
  · intro h1 h2
    simp [resolveTarget, hget, hh, resolveHistoryTarget, hPne, h1, h2]
  · intro h1
    cases hk : h.historyType <;>
      simp_all [resolveTarget, hget, hh, resolveHistoryTarget, hPne]

/-- C5 witness: over mHist with shallow history recorded for act, the
history target resolves to the initial leaf of the recorded child. -/
theorem c5_witness :
    resolveTarget mHist sRec "hist" = mHist.getInitialLeaf (mget sRec.shallowHistory "act") :=
  (c5_history_target_resolution mHist sRec "hist" "act"
      { id := "hist", type := StateType.history, parent := "act",
        historyType := HistoryType.shallow, historyDefault := "wk" }
      rfl rfl rfl (by decide)).2.1 rfl (by decide)

/-- C7 counterexample: after stop, the interpreter reads as stopped, but a
subsequent start returns it to the running state and performs initial
entry again (the entry action trace grows): Stopped is not terminal. -/
theorem c7_counterexample :
    (stop (start mSimple (newInterpreter mSimple))).started = false ∧
    (start mSimple (stop (start mSimple (newInterpreter mSimple)))).started = true ∧
    (start mSimple (stop (start mSimple (newInterpreter mSimple)))).trace = ["ea", "ea"] :=
  ⟨rfl, rfl, rfl⟩

/-- C7 (amended): start is a no-op while started and (re)performs initial
entry from any not-started state, and stop always clears the started flag:
the lifecycle is a two-state toggle, so a stopped interpreter is restarted
by a later start rather than staying terminally stopped. -/
theorem c7_lifecycle {C : Type} (m : MachineConfig C) (s : Interp C) :
    (s.started = true → start m s = s) ∧
    ((stop s).started = false) ∧
    (s.started = false → start m s = enterStateHierarchy m m.initial { s with started := true }) ∧
    (s.started = false → (start m s).started = true) := by
  refine ⟨?_, rfl, ?_, ?_⟩
  · intro h; simp [start, h]
  · intro h; simp [start, h]
  · intro h
    simp only [start, h, Bool.false_eq_true, if_false, ite_false]
    rw [enterStateHierarchy_started]

/-- C7 witness: restarting the stopped mSimple interpreter re-runs initial
entry and marks it started. -/
theorem c7_witness :
    start mSimple (stop (start mSimple (newInterpreter mSimple))) =
      enterStateHierarchy mSimple mSimple.initial
        { stop (start mSimple (newInterpreter mSimple)) with started := true } ∧
    (start mSimple (stop (start mSimple (newInterpreter mSimple)))).started = true :=
  ⟨(c7_lifecycle mSimple (stop (start mSimple (newInterpreter mSimple)))).2.2.1 rfl,
   (c7_lifecycle mSimple (stop (start mSimple (newInterpreter mSimple)))).2.2.2 rfl⟩

/-- C8: validation succeeds (returns no error) exactly when the issue list
is empty, and the validator reports every defect in one pass: the
four-defect machine mInvalid yields one issue per defect. -/
theorem c8_validator_complete :
    (∀ (C : Type) (m : MachineConfig C), validate m = none ↔ validateMachine m = []) ∧
    validateMachine mInvalid =
      [⟨"INITIAL_NOT_FOUND", "initial state ghost not found in states", []⟩,
       ⟨"MISSING_ACTION", "entry action missingAct is not defined",
        ["states", "a", "entry", "0"]⟩,
       ⟨"INVALID_TARGET", "transition target nowhere not found",
        ["states", "a", "transitions", "0"]⟩,
       ⟨"MISSING_GUARD", "guard missingGuard is not defined",
        ["states", "a", "transitions", "0"]⟩] := by
  constructor
  · intro C m
    unfold validate
    by_cases h : (validateMachine m).isEmpty
    · simp [h, List.isEmpty_iff.mp h]
    · constructor
      · intro hc; simp [h] at hc
      · intro hc; exact absurd (by simp [hc] : (validateMachine m).isEmpty = true) h
  · rfl

/-- C8 witness: the equivalence applied to the four-defect machine. -/
theorem c8_witness : validate mInvalid = none ↔ validateMachine mInvalid = [] :=
  c8_validator_complete.1 Unit mInvalid

/-- C10: mDelayed carries a builder-made After transition (empty event
type, positive delay) on its initial state; sending an event whose type is
the empty string to the started interpreter executes that delayed
transition immediately through ordinary dispatch, without any timer. -/
theorem c10_delayed_transition_matches_empty_event :
    ((mDelayed.getState "waiting").map (fun c => c.transitions)).getD [] =
      [afterTransition 100000000 "timeout" ["ta"]] ∧
    (afterTransition 100000000 "timeout" ["ta"]).event = "" ∧
    (afterTransition 100000000 "timeout" ["ta"]).isDelayed = true ∧
    (start mDelayed (newInterpreter mDelayed)).value = "waiting" ∧
    (send mDelayed [] (start mDelayed (newInterpreter mDelayed)) ⟨""⟩).value = "timeout" ∧
    (send mDelayed [] (start mDelayed (newInterpreter mDelayed)) ⟨""⟩).trace = ["ta"] :=
  ⟨rfl, rfl, rfl, rfl, rfl, rfl⟩

/-- C3 counterexample: both enumerations below are valid Go iterations of
the ActiveInParallel map of mPar after entering the parallel state (they
are permutations of it), yet broadcasting GO under them produces different
action sequences; the reversed enumeration does not follow region
declaration order, so the broadcast order is not declaration order. -/
theorem c3_counterexample :
    List.Perm [("r2", "a2"), ("r1", "a1")]
      (send mPar [] (start mPar (newInterpreter mPar)) ⟨"START"⟩).activeInParallel ∧
    (send mPar [("r2", "a2"), ("r1", "a1")]
        (send mPar [] (start mPar (newInterpreter mPar)) ⟨"START"⟩) ⟨"GO"⟩).trace =
      ["eP", "xa2", "t2", "xa1", "t1"] ∧
    (send mPar [("r1", "a1"), ("r2", "a2")]
        (send mPar [] (start mPar (newInterpreter mPar)) ⟨"START"⟩) ⟨"GO"⟩).trace =
      ["eP", "xa1", "t1", "xa2", "t2"] := by
  refine ⟨?_, rfl, rfl⟩
  have h : (send mPar [] (start mPar (newInterpreter mPar)) ⟨"START"⟩).activeInParallel =
      [("r1", "a1"), ("r2", "a2")] := rfl
  rw [h]
  exact List.Perm.swap _ _ _

/-- C3 (amended): the broadcast visits the enumerated regions
sequentially, each region's transition fully applied before the next
region sees the event (broadcast over a concatenation is composition),
and on a winning Parallel-state transition every enumerated region's exit
actions run, in enumeration order, before the Parallel state's own exit
actions; the enumeration is the Go map iteration order, which is not
specified to be declaration order. -/
theorem c3_broadcast_and_exit_shape {C : Type} (m : MachineConfig C) (e : Event)
    (pi1 pi2 : List (StateID × StateID)) (s : Interp C) (p : StateConfig)
    (hcp : s.currentParallel ≠ "") (hp : m.getState s.currentParallel = some p) :
    (broadcastRegions m e (pi1 ++ pi2) s =
      broadcastRegions m e pi2 (broadcastRegions m e pi1 s)) ∧
    ((exitParallelState m pi1 e s).trace =
      s.trace ++ regionsExitTrace m pi1 ++ registeredActs m p.exit) ∧
    ((exitParallelState m pi1 e s).activeInParallel = []) ∧
    ((exitParallelState m pi1 e s).currentParallel = "") := by
  refine ⟨?_, ?_, ?_, ?_⟩
  · simp [broadcastRegions, List.foldl_append]
  · rw [exitParallelState_eq_some m pi1 e s p hcp hp]
  · rw [exitParallelState_eq_some m pi1 e s p hcp hp]
  · rw [exitParallelState_eq_some m pi1 e s p hcp hp]

/-- C3 witness: the broadcast decomposition and region-before-parallel
exit shape on mPar after entering the parallel state. -/
theorem c3_witness :
    (broadcastRegions mPar ⟨"CANCEL"⟩ ([("r1", "a1")] ++ [("r2", "a2")])
        (send mPar [] (start mPar (newInterpreter mPar)) ⟨"START"⟩) =
      broadcastRegions mPar ⟨"CANCEL"⟩ [("r2", "a2")]
        (broadcastRegions mPar ⟨"CANCEL"⟩ [("r1", "a1")]
          (send mPar [] (start mPar (newInterpreter mPar)) ⟨"START"⟩))) ∧
    ((exitParallelState mPar [("r1", "a1")] ⟨"CANCEL"⟩
        (send mPar [] (start mPar (newInterpreter mPar)) ⟨"START"⟩)).trace =
      (send mPar [] (start mPar (newInterpreter mPar)) ⟨"START"⟩).trace ++
        regionsExitTrace mPar [("r1", "a1")] ++
        registeredActs mPar ((mPar.getState "P").getD {}).exit) ∧
    ((exitParallelState mPar [("r1", "a1")] ⟨"CANCEL"⟩
        (send mPar [] (start mPar (newInterpreter mPar)) ⟨"START"⟩)).activeInParallel = []) ∧
    ((exitParallelState mPar [("r1", "a1")] ⟨"CANCEL"⟩
        (send mPar [] (start mPar (newInterpreter mPar)) ⟨"START"⟩)).currentParallel = "") :=
  c3_broadcast_and_exit_shape mPar ⟨"CANCEL"⟩ [("r1", "a1")] [("r2", "a2")]
    (send mPar [] (start mPar (newInterpreter mPar)) ⟨"START"⟩)
    ((mPar.getState "P").getD {}) (by decide) rfl

theorem broadcastRegions_noop {C : Type} (m : MachineConfig C) (e : Event)
    (pi : List (StateID × StateID)) (s : Interp C)
    (h : ∀ pr ∈ pi, ∀ rs, m.getState pr.2 = some rs →
      findMatchingTransitionInRegion m s.context pr.1 e rs = none) :
    broadcastRegions m e pi s = s := by
  induction pi with
  | nil => rfl
  | cons pr rest ih =>
      simp only [broadcastRegions, List.foldl_cons]
      have hstep :
          (match m.getState pr.2 with
            | none => s
            | some regionState =>
                match findMatchingTransitionInRegion m s.context pr.1 e regionState with
                | none => s
                | some ts => executeTransitionInRegion m pr.1 ts e s) = s := by
        cases hg : m.getState pr.2 with
        | none => rfl
        | some rs => simp [h pr (List.mem_cons_self _ _) rs hg]
      rw [hstep]
      exact ih (fun pr2 h2 rs hg => h pr2 (List.mem_cons_of_mem _ h2) rs hg)

/-- C6: when a started interpreter receives an event for which transition
resolution finds no winner (no match with passing guard in the ancestor
chain when outside a parallel state; no match on the parallel state and
none in any enumerated region when inside one), send leaves the current
leaf, the active-region map, the context, and both history maps
unchanged. -/
theorem c6_no_winner_frame {C : Type} (m : MachineConfig C) (pi : List (StateID × StateID))
    (s : Interp C) (e : Event)
    (hst : s.started = true)
    (hnp : s.currentParallel = "" →
      ∀ cur, m.getState s.value = some cur →
        findMatchingTransitionHierarchical m s.context e cur = none)
    (hpp : s.currentParallel ≠ "" →
      ∀ p, m.getState s.currentParallel = some p →
        findMatchingTransitionAux m s.context e p.transitions = none ∧
        ∀ pr ∈ pi, ∀ rs, m.getState pr.2 = some rs →
          findMatchingTransitionInRegion m s.context pr.1 e rs = none) :
    (send m pi s e).value = s.value ∧
    (send m pi s e).activeInParallel = s.activeInParallel ∧
    (send m pi s e).context = s.context ∧
    (send m pi s e).shallowHistory = s.shallowHistory ∧
    (send m pi s e).deepHistory = s.deepHistory := by
  have hid : send m pi s e = s := by
    by_cases hcp : s.currentParallel = ""
    · simp only [send, hst, Bool.not_true, Bool.false_eq_true, if_false, ite_false, hcp,
        ne_eq, not_true_eq_false]
      cases hv : m.getState s.value with
      | none => rfl
      | some cur => simp [hnp hcp cur hv]
    · simp only [send, hst, Bool.not_true, Bool.false_eq_true, if_false, ite_false, hcp,
        ne_eq, not_false_eq_true, if_true, ite_true]
      simp only [sendToParallelRegions]
      cases hv : m.getState s.currentParallel with
      | none => rfl
      | some p =>
          obtain ⟨h1, h2⟩ := hpp hcp p hv
          simp only [h1]
          exact broadcastRegions_noop m e pi s h2
  rw [hid]
  exact ⟨rfl, rfl, rfl, rfl, rfl⟩

/-- C6 witness: an unmatched event inside the parallel state of mPar
changes nothing. -/
theorem c6_witness :
    (send mPar [("r1", "a1"), ("r2", "a2")]
        (send mPar [] (start mPar (newInterpreter mPar)) ⟨"START"⟩) ⟨"NOPE"⟩).value =
      (send mPar [] (start mPar (newInterpreter mPar)) ⟨"START"⟩).value ∧
    (send mPar [("r1", "a1"), ("r2", "a2")]
        (send mPar [] (start mPar (newInterpreter mPar)) ⟨"START"⟩) ⟨"NOPE"⟩).activeInParallel =
      (send mPar [] (start mPar (newInterpreter mPar)) ⟨"START"⟩).activeInParallel ∧
    (send mPar [("r1", "a1"), ("r2", "a2")]
        (send mPar [] (start mPar (newInterpreter mPar)) ⟨"START"⟩) ⟨"NOPE"⟩).context =
      (send mPar [] (start mPar (newInterpreter mPar)) ⟨"START"⟩).context ∧
    (send mPar [("r1", "a1"), ("r2", "a2")]
        (send mPar [] (start mPar (newInterpreter mPar)) ⟨"START"⟩) ⟨"NOPE"⟩).shallowHistory =
      (send mPar [] (start mPar (newInterpreter mPar)) ⟨"START"⟩).shallowHistory ∧
    (send mPar [("r1", "a1"), ("r2", "a2")]
        (send mPar [] (start mPar (newInterpreter mPar)) ⟨"START"⟩) ⟨"NOPE"⟩).deepHistory =
      (send mPar [] (start mPar (newInterpreter mPar)) ⟨"START"⟩).deepHistory :=
  c6_no_winner_frame mPar [("r1", "a1"), ("r2", "a2")]
    (send mPar [] (start mPar (newInterpreter mPar)) ⟨"START"⟩) ⟨"NOPE"⟩
    rfl
    (fun hcp => absurd hcp (by decide))
    (fun _ p hp => by
      have hpv : p = (mPar.getState "P").getD {} := by
        have : mPar.getState
            (send mPar [] (start mPar (newInterpreter mPar)) ⟨"START"⟩).currentParallel =
            some ((mPar.getState "P").getD {}) := rfl
        rw [this] at hp
        exact (Option.some.inj hp).symm
      subst hpv
      exact ⟨rfl, by decide⟩)

/-! ### Well-formedness and the active-regions invariant -/

/-- Structural facts the validator guarantees (spec section 3): state ids
are non-empty, and every Parallel state has at least one region, each of
which is a declared state. -/
def ParallelWF {C : Type} (m : MachineConfig C) : Prop :=
  ∀ p ∈ m.states, p.1 ≠ "" ∧
    (p.2.isParallel = true →
      p.2.children ≠ [] ∧ ∀ rid ∈ p.2.children, (m.getState rid).isSome = true)

instance parallelWFDecidable {C : Type} (m : MachineConfig C) : Decidable (ParallelWF m) := by
  unfold ParallelWF
  infer_instance

/-- The claimed relation between the active-region map, the
currentParallel marker, and the current state value. -/
def ParallelInv {C : Type} (m : MachineConfig C) (s : Interp C) : Prop :=
  (s.currentParallel = "" ∧ s.activeInParallel = [] ∧ isParallelCfg m s.value = false) ∨
  (s.currentParallel ≠ "" ∧ s.value = s.currentParallel ∧
    isParallelCfg m s.value = true ∧ s.activeInParallel ≠ [])

theorem aget_mem {α : Type} (l : List (String × α)) (k : String) (v : α)
    (h : aget l k = some v) : (k, v) ∈ l := by
  induction l with
  | nil => simp [aget] at h
  | cons p t ih =>
      simp only [aget] at h
      by_cases hk : p.1 = k
      · rw [if_pos hk] at h
        have hkv : (k, v) = p := by
          cases p
          simp_all
        rw [hkv]
        exact List.mem_cons_self _ _
      · rw [if_neg hk] at h
        exact List.mem_cons_of_mem _ (ih h)

theorem isParallelCfg_some {C : Type} (m : MachineConfig C) (id : StateID)
    (h : isParallelCfg m id = true) :
    ∃ p, m.getState id = some p ∧ p.isParallel = true := by
  cases hg : m.getState id with
  | none => simp [isParallelCfg, hg] at h
  | some p => exact ⟨p, rfl, by simpa [isParallelCfg, hg] using h⟩

theorem parallel_id_ne_empty {C : Type} (m : MachineConfig C) (id : StateID)
    (hwf : ParallelWF m) (h : isParallelCfg m id = true) : id ≠ "" := by
  obtain ⟨p, hg, -⟩ := isParallelCfg_some m id h
  exact (hwf (id, p) (aget_mem _ _ _ hg)).1

theorem getState_empty_none {C : Type} (m : MachineConfig C) (hwf : ParallelWF m) :
    m.getState "" = none := by
  cases hg : m.getState "" with
  | none => rfl
  | some p => exact absurd rfl (hwf ("", p) (aget_mem _ _ _ hg)).1

theorem regionsFold_map_ne {C : Type} (m : MachineConfig C) (e : Event) (rids : List StateID)
    (s : Interp C) (h : s.activeInParallel ≠ []) :
    (rids.foldl (fun s rid => enterRegion m rid e s) s).activeInParallel ≠ [] := by
  induction rids generalizing s with
  | nil => exact h
  | cons rid rest ih =>
      simp only [List.foldl_cons]
      cases hg : m.getState rid with
      | none =>
          rw [enterRegion_eq_none m rid e _ hg]
          exact ih s h
      | some r =>
          rw [enterRegion_eq_some m rid e _ r hg]
          exact ih _ (by simpa using mset_ne_nil s.activeInParallel rid (regionLeaf m r rid))

theorem enterParallelState_inv {C : Type} (m : MachineConfig C) (pid : StateID) (e : Event)
    (s : Interp C) (hwf : ParallelWF m) (hpar : isParallelCfg m pid = true) :
    (enterParallelState m pid e s).currentParallel = pid ∧
    (enterParallelState m pid e s).value = pid ∧
    (enterParallelState m pid e s).activeInParallel ≠ [] := by
  obtain ⟨p, hg, hp⟩ := isParallelCfg_some m pid hpar
  obtain ⟨hchne, hchAll⟩ := (hwf (pid, p) (aget_mem _ _ _ hg)).2 hp
  simp only [enterParallelState, hg, hp, Bool.not_true, Bool.false_eq_true, if_false, ite_false,
    scheduleDelayedTransitions_eq, executeActions_eq]
  obtain ⟨h1, h2, -, -, -⟩ := regionsEnterFold_fields m e p.children
    { value := pid, context := runActs m p.entry e s.context,
      activeInParallel := s.activeInParallel, started := s.started,
      shallowHistory := s.shallowHistory, deepHistory := s.deepHistory,
      timers := schedTimers m pid s.timers, currentParallel := pid,
      trace := s.trace ++ registeredActs m p.entry }
  refine ⟨by simpa using h2, by simpa using h1, ?_⟩
  cases hch : p.children with
  | nil => exact absurd hch hchne
  | cons rid rest =>
      have hrid : (m.getState rid).isSome = true := hchAll rid (by simp [hch])
      cases hg2 : m.getState rid with
      | none => simp [hg2] at hrid
      | some r =>
          simp only [List.foldl_cons]
          rw [enterRegion_eq_some m rid e _ r hg2]
          apply regionsFold_map_ne
          simpa using mset_ne_nil _ rid (regionLeaf m r rid)

theorem parallelInv_of_enterParallel {C : Type} (m : MachineConfig C) (pid : StateID)
    (e : Event) (s : Interp C) (hwf : ParallelWF m) (hpc : isParallelCfg m pid = true) :
    ParallelInv m (enterParallelState m pid e s) := by
  obtain ⟨h1, h2, h3⟩ := enterParallelState_inv m pid e s hwf hpc
  right
  refine ⟨?_, ?_, ?_, h3⟩
  · rw [h1]; exact parallel_id_ne_empty m pid hwf hpc
  · rw [h2, h1]
  · rw [h2]; exact hpc

theorem enterStatesLoop_inv {C : Type} (m : MachineConfig C) (e : Event) (rt : StateID)
    (ids : List StateID) (s : Interp C) (hwf : ParallelWF m)
    (hrt : isParallelCfg m rt = false)
    (hmap : s.activeInParallel = []) (hcp : s.currentParallel = "") :
    ParallelInv m (enterStatesLoop m e rt ids s) := by
  induction ids generalizing s with
  | nil => exact Or.inl ⟨hcp, hmap, hrt⟩
  | cons id rest ih =>
      simp only [enterStatesLoop]
      cases hg : m.getState id with
      | none => exact ih s hmap hcp
      | some cfg =>
          by_cases hpar : cfg.isParallel
          · simp only [hpar, if_true, ite_true]
            exact parallelInv_of_enterParallel m id e s hwf (by simp [isParallelCfg, hg, hpar])
          · simp only [hpar, Bool.false_eq_true, if_false, ite_false,
              scheduleDelayedTransitions_eq, executeActions_eq]
            exact ih _ (by simpa using hmap) (by simpa using hcp)

theorem executeTransitionHierarchical_inv {C : Type} (m : MachineConfig C)
    (src : TransitionSource) (e : Event) (s : Interp C) (hwf : ParallelWF m)
    (hmap : s.activeInParallel = []) (hcp : s.currentParallel = "") :
    ParallelInv m (executeTransitionHierarchical m src e s) := by
  simp only [executeTransitionHierarchical]
  rw [exitPhase_eq, executeActions_eq]
  cases hg : m.getState (resolveTarget m s src.transition.target) with
  | none =>
      simp only [hg]
      apply enterStatesLoop_inv m e _ _ _ hwf (by simp [isParallelCfg, hg])
        (by simpa using hmap) (by simpa using hcp)
  | some tc =>
      by_cases hpar : tc.isParallel
      · simp only [hg, hpar, if_true, ite_true]
        exact parallelInv_of_enterParallel m _ e _ hwf (by simp [isParallelCfg, hg, hpar])
      · simp only [hg, hpar, Bool.false_eq_true, if_false, ite_false]
        apply enterStatesLoop_inv m e _ _ _ hwf (by simp [isParallelCfg, hg, hpar])
          (by simpa using hmap) (by simpa using hcp)

theorem entryPathLoop_true (start : StateID) (l : List StateID) :
    entryPathLoop start l true = l := by
  induction l with
  | nil => rfl
  | cons a rest ih => simp [entryPathLoop, ih]

theorem leaf_mem_entryPathLoop (start leaf : StateID) :
    ∀ (l : List StateID) (found : Bool), start ∈ l ++ [leaf] ∨ found = true →
      leaf ∈ entryPathLoop start (l ++ [leaf]) found := by
  intro l
  induction l with
  | nil =>
      intro found h
      by_cases hl : leaf = start
      · simp [entryPathLoop, hl]
      · rcases h with h | h
        · simp only [List.nil_append, List.mem_singleton] at h
          exact absurd h.symm hl
        · subst h
          simp [entryPathLoop, hl]
  | cons a rest ih =>
      intro found h
      simp only [List.cons_append, entryPathLoop]
      cases hb : (found || decide (a = start)) with
      | true =>
          simp only [hb, if_true, ite_true]
          exact List.mem_cons_of_mem _ (ih true (Or.inr rfl))
      | false =>
          simp only [hb, Bool.false_eq_true, if_false, ite_false]
          have ha : a ≠ start := by
            intro hh
            simp [hh] at hb
          have hffalse : found = false := by
            cases hfc : found
            · rfl
            · rw [hfc] at hb; simp at hb
          apply ih false
          left
          rcases h with h | h
          · rcases List.mem_cons.mp h with h1 | h1
            · exact absurd h1.symm ha
            · exact h1
          · rw [h] at hffalse; cases hffalse

theorem leaf_mem_getEntryPath {C : Type} (m : MachineConfig C) (start leaf : StateID)
    (h : start ∈ m.getPath leaf) : leaf ∈ m.getEntryPath start leaf := by
  unfold MachineConfig.getEntryPath
  by_cases he : start = leaf
  · simp [he]
  · simp only [he, if_false, ite_false]
    have hpath : m.getPath leaf = (m.getAncestors leaf).reverse ++ [leaf] := rfl
    rw [hpath] at h ⊢
    exact leaf_mem_entryPathLoop start leaf _ false (Or.inl h)

theorem enterStateHierarchy_inv {C : Type} (m : MachineConfig C) (sid : StateID) (s : Interp C)
    (hwf : ParallelWF m)
    (hpath : sid ∈ m.getPath (m.getInitialLeaf sid))
    (hmap : s.activeInParallel = []) (hcp : s.currentParallel = "")
    (hval : isParallelCfg m s.value = false) :
    ParallelInv m (enterStateHierarchy m sid s) := by
  simp only [enterStateHierarchy]
  cases hg : m.getState sid with
  | none => exact Or.inl ⟨hcp, hmap, hval⟩
  | some cfg =>
      by_cases hpar : cfg.isParallel
      · simp only [hpar, if_true, ite_true]
        exact parallelInv_of_enterParallel m sid ⟨""⟩ s hwf (by simp [isParallelCfg, hg, hpar])
      · simp only [hpar, Bool.false_eq_true, if_false, ite_false]
        cases hf : (m.getEntryPath sid (m.getInitialLeaf sid)).find? (fun id =>
          match m.getState id with
          | some sc => sc.isParallel
          | none => false) with
        | some pid =>
            simp only [hf]
            rw [entryFold_eq]
            have hpred := List.find?_some hf
            have hpc : isParallelCfg m pid = true := by
              cases hgp : m.getState pid with
              | none => simp [hgp] at hpred
              | some sc =>
                  simp only [hgp] at hpred
                  simp [isParallelCfg, hgp, hpred]
            exact parallelInv_of_enterParallel m pid ⟨""⟩ _ hwf hpc
        | none =>
            simp only [hf]
            rw [entryFold_eq]
            left
            refine ⟨by simpa using hcp, by simpa using hmap, ?_⟩
            have hleaf : m.getInitialLeaf sid ∈ m.getEntryPath sid (m.getInitialLeaf sid) :=
              leaf_mem_getEntryPath m sid _ hpath
            have hnp := List.find?_eq_none.mp hf _ hleaf
            cases hgl : m.getState (m.getInitialLeaf sid) with
            | none => simp [isParallelCfg, hgl]
            | some sc =>
                simp only [hgl] at hnp
                simp only [isParallelCfg, hgl, Option.map_some, Option.getD_some]
                simpa using hnp

theorem start_newInterpreter_inv {C : Type} (m : MachineConfig C) (hwf : ParallelWF m)
    (hinit : m.initial ∈ m.getPath (m.getInitialLeaf m.initial)) :
    ParallelInv m (start m (newInterpreter m)) := by
  have hs : start m (newInterpreter m) =
      enterStateHierarchy m m.initial { newInterpreter m with started := true } := rfl
  rw [hs]
  exact enterStateHierarchy_inv m m.initial _ hwf hinit rfl rfl
    (by simp [isParallelCfg, getState_empty_none m hwf, newInterpreter])

theorem broadcastRegions_fields {C : Type} (m : MachineConfig C) (e : Event)
    (pi : List (StateID × StateID)) (s : Interp C) :
    (broadcastRegions m e pi s).value = s.value ∧
    (broadcastRegions m e pi s).currentParallel = s.currentParallel ∧
    (broadcastRegions m e pi s).started = s.started ∧
    (s.activeInParallel ≠ [] → (broadcastRegions m e pi s).activeInParallel ≠ []) := by
  induction pi generalizing s with
  | nil => exact ⟨rfl, rfl, rfl, fun h => h⟩
  | cons pr rest ih =>
      have hstep : broadcastRegions m e (pr :: rest) s =
          broadcastRegions m e rest
            (match m.getState pr.2 with
             | none => s
             | some regionState =>
                 match findMatchingTransitionInRegion m s.context pr.1 e regionState with
                 | none => s
                 | some ts => executeTransitionInRegion m pr.1 ts e s) := rfl
      rw [hstep]
      cases hg : m.getState pr.2 with
      | none => exact ih s
      | some rs =>
          have hred : broadcastRegions m e rest
              (match some rs with
               | none => s
               | some regionState =>
                   match findMatchingTransitionInRegion m s.context pr.1 e regionState with
                   | none => s
                   | some ts => executeTransitionInRegion m pr.1 ts e s) =
            broadcastRegions m e rest
              (match findMatchingTransitionInRegion m s.context pr.1 e rs with
               | none => s
               | some ts => executeTransitionInRegion m pr.1 ts e s) := rfl
          rw [hred]
          cases hfind : findMatchingTransitionInRegion m s.context pr.1 e rs with
          | none => exact ih s
          | some ts =>
              have hred2 : broadcastRegions m e rest
                  (match some ts with
                   | none => s
                   | some ts => executeTransitionInRegion m pr.1 ts e s) =
                broadcastRegions m e rest (executeTransitionInRegion m pr.1 ts e s) := rfl
              rw [hred2, executeTransitionInRegion_eq]
              obtain ⟨h1, h2, h3, h4⟩ := ih
                { s with
                  context :=
                    ctxAfterEntries m e (regionEnterSetOf m s pr.1 ts)
                      (runActs m ts.transition.actions e
                        (ctxAfterExits m e (regionExitSetOf m s pr.1 ts) s.context)),
                  trace :=
                    s.trace ++ exitTraceOf m (regionExitSetOf m s pr.1 ts) ++
                      registeredActs m ts.transition.actions ++
                      entryTraceOf m (regionEnterSetOf m s pr.1 ts),
                  timers :=
                    timersAfterEntries m (regionEnterSetOf m s pr.1 ts)
                      (timersAfterExits m (regionExitSetOf m s pr.1 ts) s.timers),
                  activeInParallel :=
                    mset s.activeInParallel pr.1 (resolveTarget m s ts.transition.target) }
              refine ⟨by simpa using h1, by simpa using h2, by simpa using h3, fun _ => ?_⟩
              apply h4
              simpa using mset_ne_nil s.activeInParallel pr.1
                (resolveTarget m s ts.transition.target)

theorem send_inv {C : Type} (m : MachineConfig C) (pi : List (StateID × StateID))
    (s : Interp C) (e : Event) (hwf : ParallelWF m) (hinv : ParallelInv m s) :
    ParallelInv m (send m pi s e) := by
  by_cases hst : s.started = true
  · by_cases hcp : s.currentParallel = ""
    · have hmap : s.activeInParallel = [] := by
        rcases hinv with ⟨-, hm, -⟩ | ⟨hcp', -, -, -⟩
        · exact hm
        · exact absurd hcp hcp'
      simp only [send, hst, Bool.not_true, Bool.false_eq_true, if_false, ite_false, hcp,
        ne_eq, not_true_eq_false]
      cases hv : m.getState s.value with
      | none => exact hinv
      | some cur =>
          cases hfind : findMatchingTransitionHierarchical m s.context e cur with
          | none => simp only [hfind]; exact hinv
          | some src =>
              simp only [hfind]
              exact executeTransitionHierarchical_inv m src e s hwf hmap hcp
    · have hveq : s.value = s.currentParallel := by
        rcases hinv with ⟨hcp', -, -⟩ | ⟨-, hv, -, -⟩
        · exact absurd hcp' hcp
        · exact hv
      have hvp : isParallelCfg m s.value = true := by
        rcases hinv with ⟨hcp', -, -⟩ | ⟨-, -, hv, -⟩
        · exact absurd hcp' hcp
        · exact hv
      have hmapne : s.activeInParallel ≠ [] := by
        rcases hinv with ⟨hcp', -, -⟩ | ⟨-, -, -, hv⟩
        · exact absurd hcp' hcp
        · exact hv
      have hpcp : isParallelCfg m s.currentParallel = true := by rwa [hveq] at hvp
      obtain ⟨p, hg, hp⟩ := isParallelCfg_some m s.currentParallel hpcp
      simp only [send, hst, Bool.not_true, Bool.false_eq_true, if_false, ite_false, hcp,
        ne_eq, not_false_eq_true, if_true, ite_true, sendToParallelRegions, hg]
      cases hfind : findMatchingTransitionAux m s.context e p.transitions with
      | some t =>
          simp only [hfind]
          rw [exitParallelState_eq_some m pi e s p hcp hg]
          exact executeTransitionHierarchical_inv m _ e _ hwf rfl rfl
      | none =>
          simp only [hfind]
          obtain ⟨h1, h2, -, h4⟩ := broadcastRegions_fields m e pi s
          right
          refine ⟨by rwa [h2], ?_, ?_, h4 hmapne⟩
          · rw [h1, h2, hveq]
          · rwa [h1]
  · have hst' : s.started = false := by
      cases h : s.started
      · rfl
      · exact absurd h hst
    simp only [send, hst', Bool.not_false, if_true, ite_true]
    exact hinv

/-- A public interpreter operation (timer callbacks excluded); the send
argument carries the map-enumeration order the Go range loops would use. -/
inductive Op (C : Type) where
  | sendOp (pi : List (StateID × StateID)) (e : Event)
  | updateOp (f : C → C)
  | stopOp

/-- Apply one public operation. -/
def applyOp {C : Type} (m : MachineConfig C) (s : Interp C) : Op C → Interp C
  | Op.sendOp pi e => send m pi s e
  | Op.updateOp f => updateContext f s
  | Op.stopOp => stop s

/-- Run a sequence of public operations. -/
def runOps {C : Type} (m : MachineConfig C) : List (Op C) → Interp C → Interp C
  | [], s => s
  | op :: rest, s => runOps m rest (applyOp m s op)

theorem applyOp_inv {C : Type} (m : MachineConfig C) (s : Interp C) (op : Op C)
    (hwf : ParallelWF m) (hinv : ParallelInv m s) : ParallelInv m (applyOp m s op) := by
  cases op with
  | sendOp pi e => exact send_inv m pi s e hwf hinv
  | updateOp f => exact hinv
  | stopOp => exact hinv

theorem runOps_inv {C : Type} (m : MachineConfig C) (ops : List (Op C)) (s : Interp C)
    (hwf : ParallelWF m) (hinv : ParallelInv m s) : ParallelInv m (runOps m ops s) := by
  induction ops generalizing s with
  | nil => exact hinv
  | cons op rest ih => exact ih _ (applyOp_inv m s op hwf hinv)

/-- C9 counterexample: run start, send START (which enters the parallel
state P), stop, start on mPar.  The final state has a nonempty
active-region map and a nonempty currentParallel marker, yet its current
state value is the atomic state idle: the claimed iff between a nonempty
active-region map and being inside a Parallel state fails for this
sequence of public operations, because Stop clears neither the map nor the
marker and the restart re-enters the initial atomic state. -/
theorem c9_counterexample :
    (start mPar (stop (send mPar [] (start mPar (newInterpreter mPar))
        ⟨"START"⟩))).activeInParallel = [("r1", "a1"), ("r2", "a2")] ∧
    (start mPar (stop (send mPar [] (start mPar (newInterpreter mPar))
        ⟨"START"⟩))).value = "idle" ∧
    isParallelCfg mPar "idle" = false ∧
    (start mPar (stop (send mPar [] (start mPar (newInterpreter mPar))
        ⟨"START"⟩))).currentParallel = "P" :=
  ⟨rfl, rfl, rfl, rfl⟩

/-- C9 (amended): for a machine whose state ids are non-empty, whose
Parallel states have at least one declared region, and whose initial state
lies on the path to its initial leaf, after an initial start followed by
any sequence of send, update-context, and stop operations with no restart
(' start' is not called again after stop), the active-region map is
nonempty exactly when the current state value names a Parallel state, and
then the current state value equals the tracked parallel state id. -/
theorem c9_active_regions_iff_parallel {C : Type} (m : MachineConfig C) (ops : List (Op C))
    (hwf : ParallelWF m)
    (hinit : m.initial ∈ m.getPath (m.getInitialLeaf m.initial)) :
    ((runOps m ops (start m (newInterpreter m))).activeInParallel ≠ [] ↔
      isParallelCfg m (runOps m ops (start m (newInterpreter m))).value = true) ∧
    ((runOps m ops (start m (newInterpreter m))).activeInParallel ≠ [] →
      (runOps m ops (start m (newInterpreter m))).value =
        (runOps m ops (start m (newInterpreter m))).currentParallel) := by
  have hinv : ParallelInv m (runOps m ops (start m (newInterpreter m))) :=
    runOps_inv m ops _ hwf (start_newInterpreter_inv m hwf hinit)
  rcases hinv with ⟨-, hmap, hval⟩ | ⟨-, hveq, hvp, hmapne⟩
  · constructor
    · constructor
      · intro h; exact absurd hmap h
      · intro h; rw [hval] at h; cases h
    · intro h; exact absurd hmap h
  · exact ⟨⟨fun _ => hvp, fun _ => hmapne⟩, fun _ => hveq⟩

/-- C9 witness: after start and a broadcast send on mPar the invariant
holds concretely. -/
theorem c9_witness :
    ((runOps mPar [Op.sendOp [] ⟨"START"⟩, Op.sendOp [("r1", "a1"), ("r2", "a2")] ⟨"GO"⟩]
        (start mPar (newInterpreter mPar))).activeInParallel ≠ [] ↔
      isParallelCfg mPar
        (runOps mPar [Op.sendOp [] ⟨"START"⟩, Op.sendOp [("r1", "a1"), ("r2", "a2")] ⟨"GO"⟩]
          (start mPar (newInterpreter mPar))).value = true) ∧
    ((runOps mPar [Op.sendOp [] ⟨"START"⟩, Op.sendOp [("r1", "a1"), ("r2", "a2")] ⟨"GO"⟩]
        (start mPar (newInterpreter mPar))).activeInParallel ≠ [] →
      (runOps mPar [Op.sendOp [] ⟨"START"⟩, Op.sendOp [("r1", "a1"), ("r2", "a2")] ⟨"GO"⟩]
          (start mPar (newInterpreter mPar))).value =
        (runOps mPar [Op.sendOp [] ⟨"START"⟩, Op.sendOp [("r1", "a1"), ("r2", "a2")] ⟨"GO"⟩]
          (start mPar (newInterpreter mPar))).currentParallel) :=
  c9_active_regions_iff_parallel mPar
    [Op.sendOp [] ⟨"START"⟩, Op.sendOp [("r1", "a1"), ("r2", "a2")] ⟨"GO"⟩]
    (by decide) (by decide)

end StateKit

